import Mathlib

/-!
A shallow embedding of the local SVG chart-rendering core of
`mcp-server-chart` (`src/utils/generate.ts`): the dispatcher and document
assembler `generateSvgContent`, and the nine per-chart layout engines
(column, line, pie, area, scatter, radar, dual-axes, histogram, funnel).

Modelling conventions
* JavaScript numbers are modelled by exact rationals extended with `NaN`
  and the two signed infinities (`JNum`); the IEEE-754 rounding of the
  binary doubles is abstracted away, but the special values produced by
  division by zero, and their propagation through arithmetic,
  comparisons (`NaN` compares false) and `Math.min/max/floor/round`,
  follow the JavaScript semantics exactly.
* JavaScript values that can sit in a data-point field are modelled by
  `JVal`: a finite number, a `NaN`-like value (anything whose numeric
  coercion is `NaN`, e.g. a non-numeric string), or a string.  `String(v)`
  and `Number(v)` and truthiness are modelled per case; numeric strings
  are represented by `JVal.vnum` directly.
* The engines build their markup fragments as lists of structured SVG
  elements (`El`); `renderEl` produces exactly the template strings of
  the source, so the assembled document is the source's output string.
* Arithmetic wrappers `qadd` … `qfloor` compute through `Rat.divInt`
  (Batteries marks `Rat.add` etc. `@[irreducible]`, which blocks kernel
  evaluation); they are proved equal to the field operations on `ℚ`.
-/

/-! ## Kernel-computable rational arithmetic -/

def qneg (a : ℚ) : ℚ := Rat.divInt (-a.num) a.den

def qadd (a b : ℚ) : ℚ :=
  Rat.divInt (a.num * b.den + b.num * a.den) ((a.den : ℤ) * (b.den : ℤ))

def qsub (a b : ℚ) : ℚ :=
  Rat.divInt (a.num * b.den - b.num * a.den) ((a.den : ℤ) * (b.den : ℤ))

def qmul (a b : ℚ) : ℚ := Rat.divInt (a.num * b.num) ((a.den : ℤ) * (b.den : ℤ))

def qdiv (a b : ℚ) : ℚ := Rat.divInt (a.num * b.den) ((a.den : ℤ) * b.num)

def qfloor (a : ℚ) : ℤ := Rat.floor a

def qle (a b : ℚ) : Bool := decide (a.num * b.den ≤ b.num * a.den)

def qlt (a b : ℚ) : Bool := decide (a.num * b.den < b.num * a.den)

def qofInt (i : ℤ) : ℚ := Rat.divInt i 1

def qofNat (n : ℕ) : ℚ := Rat.divInt n 1

/-- One half, in kernel-computable form (the literal `0.5` of the source). -/
def qhalf : ℚ := mkRat 1 2

/-! ## JavaScript numbers -/

/-- A JavaScript number: an exact rational, `NaN`, `Infinity` or
`-Infinity`.  (`-0` is identified with `0`.) -/
inductive JNum where
  | nan : JNum
  | inf : JNum
  | ninf : JNum
  | num (q : ℚ) : JNum
deriving DecidableEq

/-- JS unary minus. -/
def jneg : JNum → JNum
  | .nan => .nan
  | .inf => .ninf
  | .ninf => .inf
  | .num q => .num (qneg q)

/-- JS `+` on numbers. -/
def jadd : JNum → JNum → JNum
  | .nan, _ => .nan
  | _, .nan => .nan
  | .inf, .ninf => .nan
  | .ninf, .inf => .nan
  | .inf, _ => .inf
  | _, .inf => .inf
  | .ninf, _ => .ninf
  | _, .ninf => .ninf
  | .num a, .num b => .num (qadd a b)

/-- JS binary `-` on numbers. -/
def jsub (a b : JNum) : JNum := jadd a (jneg b)

/-- JS `*` on numbers. -/
def jmul : JNum → JNum → JNum
  | .nan, _ => .nan
  | _, .nan => .nan
  | .inf, .inf => .inf
  | .inf, .ninf => .ninf
  | .ninf, .inf => .ninf
  | .ninf, .ninf => .inf
  | .inf, .num b => if b = 0 then .nan else if qlt 0 b then .inf else .ninf
  | .num a, .inf => if a = 0 then .nan else if qlt 0 a then .inf else .ninf
  | .ninf, .num b => if b = 0 then .nan else if qlt 0 b then .ninf else .inf
  | .num a, .ninf => if a = 0 then .nan else if qlt 0 a then .ninf else .inf
  | .num a, .num b => .num (qmul a b)

/-- JS `/` on numbers: `0/0 = NaN`, `x/0 = ±Infinity` for `x ≠ 0`. -/
def jdiv : JNum → JNum → JNum
  | .nan, _ => .nan
  | _, .nan => .nan
  | .inf, .inf => .nan
  | .inf, .ninf => .nan
  | .ninf, .inf => .nan
  | .ninf, .ninf => .nan
  | .inf, .num b => if qle 0 b then .inf else .ninf
  | .ninf, .num b => if qle 0 b then .ninf else .inf
  | .num _, .inf => .num 0
  | .num _, .ninf => .num 0
  | .num a, .num b =>
    if b = 0 then (if a = 0 then .nan else if qlt 0 a then .inf else .ninf)
    else .num (qdiv a b)

/-- JS `Math.floor`. -/
def jfloor : JNum → JNum
  | .num q => .num (qofInt (qfloor q))
  | x => x

/-- JS `Math.round` (round half toward `+∞`). -/
def jround : JNum → JNum
  | .num q => .num (qofInt (qfloor (qadd q qhalf)))
  | x => x

/-- JS `<` (any comparison with `NaN` is false). -/
def jltB : JNum → JNum → Bool
  | .nan, _ => false
  | _, .nan => false
  | .inf, _ => false
  | _, .inf => true
  | .ninf, .ninf => false
  | .ninf, .num _ => true
  | .num _, .ninf => false
  | .num a, .num b => qlt a b

/-- JS `<=` (any comparison with `NaN` is false). -/
def jleB : JNum → JNum → Bool
  | .nan, _ => false
  | _, .nan => false
  | .ninf, _ => true
  | _, .inf => true
  | .inf, _ => false
  | .num _, .ninf => false
  | .num a, .num b => qle a b

/-- JS `>`. -/
def jgtB (a b : JNum) : Bool := jltB b a

/-- JS `Math.max` of two numbers. -/
def jmax : JNum → JNum → JNum
  | .nan, _ => .nan
  | _, .nan => .nan
  | .inf, _ => .inf
  | _, .inf => .inf
  | .ninf, b => b
  | a, .ninf => a
  | .num a, .num b => .num (if qle a b then b else a)

/-- JS `Math.min` of two numbers. -/
def jmin : JNum → JNum → JNum
  | .nan, _ => .nan
  | _, .nan => .nan
  | .ninf, _ => .ninf
  | _, .ninf => .ninf
  | .inf, b => b
  | a, .inf => a
  | .num a, .num b => .num (if qle a b then a else b)

/-- JS `Math.max(...l)` (empty spread gives `-Infinity`). -/
def jmaxSpread (l : List JNum) : JNum := l.foldl jmax .ninf

/-- JS `Math.min(...l)` (empty spread gives `Infinity`). -/
def jminSpread (l : List JNum) : JNum := l.foldl jmin .inf

/-- JS truthiness of a number (`0` and `NaN` are falsy). -/
def jtruthy : JNum → Bool
  | .nan => false
  | .inf => true
  | .ninf => true
  | .num q => !(decide (q = 0))

/-- `x || 0` applied to a JS number. -/
def jor0 (j : JNum) : JNum := if jtruthy j then j else .num 0

/-- `m.get(k) || 0` applied to a possibly-missing JS number. -/
def jGetOr0 (v : Option JNum) : JNum :=
  match v with
  | some j => jor0 j
  | none => .num 0

/-! ## Number-to-string rendering

JavaScript renders numbers as shortest decimal strings; for the exact
rationals of this model we use the canonical form `num` when the value
is an integer and `num/den` otherwise (an injective stand-in: no claim of
the specification inspects the decimal text of a non-integer coordinate).
-/

/-- Template-interpolation of a model number (`${q}`). -/
def ratToString (q : ℚ) : String :=
  if q.den = 1 then toString q.num else toString q.num ++ "/" ++ toString q.den

/-- Left-pad a digit string with zeros to length `f`. -/
def padZeros (f : ℕ) (s : String) : String :=
  String.mk (List.replicate (f - s.length) '0') ++ s

/-- JS `Number.prototype.toFixed(f)` on an exact rational: the integer
`n` minimizing `|n / 10^f − q|`, ties toward the larger `n`. -/
def ratToFixed (f : ℕ) (q : ℚ) : String :=
  let scaled : ℤ := qfloor (qadd (qmul q (qofNat (10 ^ f))) qhalf)
  let sign := if scaled < 0 then "-" else ""
  let a := scaled.natAbs
  if f = 0 then sign ++ toString a
  else sign ++ toString (a / 10 ^ f) ++ "." ++ padZeros f (toString (a % 10 ^ f))

/-- Template-interpolation of a JS number (`NaN` and the infinities
print as in JavaScript). -/
def jToString : JNum → String
  | .nan => "NaN"
  | .inf => "Infinity"
  | .ninf => "-Infinity"
  | .num q => ratToString q

/-- JS `toFixed(f)` on a possibly non-finite number. -/
def jToFixed (f : ℕ) : JNum → String
  | .nan => "NaN"
  | .inf => "Infinity"
  | .ninf => "-Infinity"
  | .num q => ratToFixed f q

/-! ## JavaScript data values -/

/-- A JS value sitting in a data-point field: a finite number, a value
whose numeric coercion is `NaN` (e.g. a non-numeric string, `NaN`
itself — its display string is kept), or a string.  Numeric strings are
represented by `vnum` (their display and coercion agree with a number's
for every use the engines make of them). -/
inductive JVal where
  | vnum (q : ℚ)
  | vnan (s : String)
  | vstr (s : String)
deriving DecidableEq

/-- `String(v)`. -/
def valToString : JVal → String
  | .vnum q => ratToString q
  | .vnan s => s
  | .vstr s => s

/-- `Number(v)`. -/
def valToNum : JVal → JNum
  | .vnum q => .num q
  | .vnan _ => .nan
  | .vstr _ => .nan

/-- JS truthiness of a data value. -/
def valTruthy : JVal → Bool
  | .vnum q => !(decide (q = 0))
  | .vnan _ => true
  | .vstr s => !(s == "")

/-- `a || b` on a possibly-missing field value. -/
def jvalOr (a : Option JVal) (b : JVal) : JVal :=
  match a with
  | some v => if valTruthy v then v else b
  | none => b

/-- The recognized fields of an object data item (`none` = the field is
absent or `undefined`). -/
structure JObj where
  category : Option JVal := none
  value : Option JVal := none
  group : Option JVal := none
  time : Option JVal := none
  name : Option JVal := none
  x : Option JVal := none
  y : Option JVal := none
  bar : Option JVal := none
  line : Option JVal := none
  value2 : Option JVal := none
deriving DecidableEq

/-- One element of a `data` array: an object, or a primitive
(number/string); `typeof item === 'object'` holds exactly for `obj`. -/
inductive JItem where
  | prim (v : JVal)
  | obj (o : JObj)
deriving DecidableEq

/-- `Number(item)` (an object without custom coercion gives `NaN`). -/
def itemToNum : JItem → JNum
  | .prim v => valToNum v
  | .obj _ => .nan

/-- `Number(item) || 0`. -/
def itemNumOr0 (it : JItem) : JNum := jor0 (itemToNum it)

/-- The `data` argument as the engines receive it: an array, or a truthy
non-array value (a falsy one is replaced by `[]` before dispatch). -/
inductive DataArg where
  | arr (items : List JItem)
  | notArr
deriving DecidableEq

/-- One entry of `options.series` (dual-axes new format); `sdata` is the
`number[]` of the TypeScript interface. -/
structure SeriesDef where
  stype : String
  sdata : List ℚ
  axisYTitle : Option String := none
deriving DecidableEq

/-- The recognized chart options (`none` = absent; for `width`/`height`
`none` also covers other falsy values, which the `||` defaults replace). -/
structure ChartOptions where
  width : Option ℚ := none
  height : Option ℚ := none
  title : Option String := none
  data : Option DataArg := none
  axisXTitle : Option String := none
  axisYTitle : Option String := none
  bins : Option ℕ := none
  series : Option (List SeriesDef) := none
  categories : Option (List String) := none
deriving DecidableEq

/-- The ambient JS facilities the engines call whose numeric results the
claims never inspect: `Math.PI`, `Math.cos`, `Math.sin`, `Math.random`
(indexed by call site) and `toLocaleString` on finite numbers.  Theorems
quantify over an arbitrary environment. -/
structure JsEnv where
  pi : ℚ
  cos : JNum → JNum
  sin : JNum → JNum
  rand : ℕ → ℚ
  locale : ℚ → String

/-- `toLocaleString()` (non-finite numbers print as fixed strings). -/
def jToLocale (env : JsEnv) : JNum → String
  | .nan => "NaN"
  | .inf => "∞"
  | .ninf => "-∞"
  | .num q => env.locale q

/-! ## Structured SVG elements and their exact rendering -/

/-- A structured SVG element as the engines emit them; `attrs` is the
trailing attribute text of the source template (it starts with a space),
`content` the text content interpolated between the tags. -/
inductive El where
  | textEl (x y : JNum) (attrs : String) (content : String)
  | rectEl (x y w h : JNum) (attrs : String)
  | circleEl (cx cy r : JNum) (attrs : String)
  | lineEl (x1 y1 x2 y2 : JNum) (attrs : String)
  | pathEl (d : String) (attrs : String)
  | polygonEl (pts : String) (attrs : String)
deriving DecidableEq

/-- Renders one element exactly as the source template writes it. -/
def renderEl : El → String
  | .textEl x y attrs content =>
    "<text x=\"" ++ jToString x ++ "\" y=\"" ++ jToString y ++ "\"" ++ attrs
      ++ ">" ++ content ++ "</text>"
  | .rectEl x y w h attrs =>
    "<rect x=\"" ++ jToString x ++ "\" y=\"" ++ jToString y ++ "\" width=\""
      ++ jToString w ++ "\" height=\"" ++ jToString h ++ "\"" ++ attrs ++ "/>"
  | .circleEl cx cy r attrs =>
    "<circle cx=\"" ++ jToString cx ++ "\" cy=\"" ++ jToString cy ++ "\" r=\""
      ++ jToString r ++ "\"" ++ attrs ++ "/>"
  | .lineEl x1 y1 x2 y2 attrs =>
    "<line x1=\"" ++ jToString x1 ++ "\" y1=\"" ++ jToString y1 ++ "\" x2=\""
      ++ jToString x2 ++ "\" y2=\"" ++ jToString y2 ++ "\"" ++ attrs ++ "/>"
  | .pathEl d attrs => "<path d=\"" ++ d ++ "\"" ++ attrs ++ "/>"
  | .polygonEl pts attrs => "<polygon points=\"" ++ pts ++ "\"" ++ attrs ++ "/>"

/-- The engines accumulate their fragment with `+=`; the fragment string
is the concatenation of the rendered elements. -/
def renderEls (els : List El) : String := els.foldr (fun e s => renderEl e ++ s) ""

/-- `pat` occurs as a contiguous substring of `s`. -/
def ContainsSub (s pat : String) : Prop := pat.data <:+: s.data

instance containsSubDec (s pat : String) : Decidable (ContainsSub s pat) :=
  inferInstanceAs (Decidable (pat.data <:+: s.data))

theorem containsSub_of_eq_append {s a pat b : String}
    (h : s = a ++ (pat ++ b)) : ContainsSub s pat := by
  refine ⟨a.data, b.data, ?_⟩
  subst h
  simp [String.data_append]

theorem ContainsSub.mono {s t pat : String} (h : ContainsSub s pat)
    {u v : String} (hs : t = u ++ (s ++ v)) : ContainsSub t pat := by
  rcases h with ⟨a, b, hab⟩
  refine ⟨u.data ++ a, b ++ v.data, ?_⟩
  subst hs
  simp [String.data_append, ← hab]

/-! ## Shared engine pieces -/

/-- The chart canvas area (`{x, y, width, height}`). -/
structure Area where
  x : ℚ
  y : ℚ
  w : ℚ
  h : ℚ

/-- `{x: 80, y: 60, width: width - 140, height: height - 140}`. -/
def chartAreaOf (width height : ℚ) : Area :=
  ⟨80, 60, qsub width 140, qsub height 140⟩

def attrsMidLabel : String := " text-anchor=\"middle\" class=\"axis-label\""

def attrsMidFont10 : String :=
  " text-anchor=\"middle\" class=\"axis-label\" font-size=\"10\""

def attrsEndLabel : String := " text-anchor=\"end\" class=\"axis-label\""

def attrsStartLabel : String := " text-anchor=\"start\" class=\"axis-label\""

def attrsLegendText : String := " class=\"legend-text\""

def attrsAxis : String := " class=\"axis\""

def attrFill (color : String) : String := " fill=\"" ++ color ++ "\""

def attrsChartBar (color : String) : String :=
  " fill=\"" ++ color ++ "\" class=\"chart-bar\""

def noDataText : String := "No data available"

/-- The `'No data available'` placeholder fragment every engine returns
for an empty or non-array data argument. -/
def noDataEl : El := .textEl (.num 400) (.num 300) attrsMidLabel noDataText

def colColors : List String :=
  ["#4285f4", "#ea4335", "#fbbc04", "#34a853", "#9aa0a6", "#ff6d01"]

/-- `colors[i % colors.length]`. -/
def colorAt (colors : List String) (i : ℕ) : String :=
  (colors.getD (i % colors.length)) ""

/-- The two axis lines shared by the column/line/area/scatter/histogram
engines. -/
def axesEls (area : Area) : List El :=
  [.lineEl (.num area.x) (.num area.y) (.num area.x)
     (.num (qadd area.y area.h)) attrsAxis,
   .lineEl (.num area.x) (.num (qadd area.y area.h))
     (.num (qadd area.x area.w)) (.num (qadd area.y area.h)) attrsAxis]

def attrsAxisTitle : String := " text-anchor=\"middle\" class=\"axis-title\""

def attrsYTitle (yMid : ℚ) : String :=
  " text-anchor=\"middle\" class=\"axis-title\" transform=\"rotate(-90 30 "
    ++ ratToString yMid ++ ")\""

/-- The conditional `axisXTitle` / `axisYTitle` texts of the column and
line engines (an empty string is falsy and emits nothing). -/
def axisTitleEls (area : Area) (o : ChartOptions) : List El :=
  (match o.axisXTitle with
   | some t =>
     if t == "" then []
     else [.textEl (.num (qadd area.x (qdiv area.w 2)))
        (.num (qadd (qadd area.y area.h) 50)) attrsAxisTitle t]
   | none => []) ++
  (match o.axisYTitle with
   | some t =>
     if t == "" then []
     else [.textEl (.num 30) (.num (qadd area.y (qdiv area.h 2)))
        (attrsYTitle (qadd area.y (qdiv area.h 2))) t]
   | none => [])

/-! ## The column/grouped-bar engine -/

def defaultGroupVal : JVal := .vstr "Series 1"

/-- The insertion-ordered sets and the two-level insertion-ordered map
the column engine's grouping pass builds. -/
structure ColAcc where
  cats : List String
  grps : List JVal
  gd : List (String × List (JVal × JNum))
deriving DecidableEq

def addUniqueStr (l : List String) (s : String) : List String :=
  if s ∈ l then l else l ++ [s]

def addUniqueVal (l : List JVal) (v : JVal) : List JVal :=
  if v ∈ l then l else l ++ [v]

/-- `Map.get` on an insertion-ordered association list. -/
def alGet {α β : Type} [DecidableEq α] : List (α × β) → α → Option β
  | [], _ => none
  | (k, v) :: rest, k' => if k = k' then some v else alGet rest k'

/-- `Map.set` on an insertion-ordered association list (an existing key
keeps its position). -/
def alSet {α β : Type} [DecidableEq α] : List (α × β) → α → β → List (α × β)
  | [], k, v => [(k, v)]
  | (k0, v0) :: rest, k, v =>
    if k0 = k then (k0, v) :: rest else (k0, v0) :: alSet rest k v

/-- One step of the column engine's grouping `forEach`: the item counts
iff it is an object with truthy `category` and present `value`. -/
def colStep (acc : ColAcc) (it : JItem) : ColAcc :=
  match it with
  | .obj o =>
    match o.category, o.value with
    | some cv, some vv =>
      if valTruthy cv then
        let c := valToString cv
        let g := jvalOr o.group defaultGroupVal
        let v := valToNum vv
        { cats := addUniqueStr acc.cats c
          grps := addUniqueVal acc.grps g
          gd := alSet acc.gd c (alSet ((alGet acc.gd c).getD []) g v) }
      else acc
    | _, _ => acc
  | .prim _ => acc

def colCollect (items : List JItem) : ColAcc := items.foldl colStep ⟨[], [], []⟩

/-- `maxValue` of the column engine before the zero default. -/
def colMaxRaw (gd : List (String × List (JVal × JNum))) : JNum :=
  gd.foldl (fun m p => p.2.foldl (fun m2 q => jmax m2 q.2) m) (.num 0)

/-- `maxValue` after `if (maxValue === 0) maxValue = 1`. -/
def colMaxFinal (gd : List (String × List (JVal × JNum))) : JNum :=
  if colMaxRaw gd = .num 0 then .num 1 else colMaxRaw gd

/-- The value drawn for cell `(category, group)`:
`categoryData.get(group) || 0` (an absent pair gives `0`). -/
def colCellValue (cm : List (JVal × JNum)) (g : JVal) : JNum :=
  jGetOr0 (alGet cm g)

/-- The `<rect>` (always emitted) plus the value label (only when the
bar is taller than 20px) of one `(category, group)` cell. -/
def colCellEls (area : Area) (grpsLen : ℕ) (catX catW barW maxV : JNum)
    (cm : List (JVal × JNum)) (gi : ℕ) (g : JVal) : List El :=
  let value := colCellValue cm g
  let barH := jmul (jdiv value maxV) (.num area.h)
  let barX := jadd (jadd catX (jmul (.num (qofNat gi)) barW))
    (jdiv (jsub catW (jmul (.num (qofNat grpsLen)) barW)) (.num 2))
  let barY := jsub (.num (qadd area.y area.h)) barH
  [.rectEl barX barY barW barH (attrsChartBar (colorAt colColors gi))]
    ++ (if jgtB barH (.num 20) then
          [.textEl (jadd barX (jdiv barW (.num 2))) (jsub barY (.num 5))
             attrsMidLabel (jToString value)]
        else [])

/-- The bars and the category label of one category column. -/
def colCatEls (area : Area) (acc : ColAcc) (catW barW maxV : JNum)
    (ci : ℕ) (c : String) : List El :=
  match alGet acc.gd c with
  | none => []
  | some cm =>
    let catX := jadd (.num area.x) (jmul (.num (qofNat ci)) catW)
    (acc.grps.enum.flatMap fun p =>
        colCellEls area acc.grps.length catX catW barW maxV cm p.1 p.2)
      ++ [.textEl (jadd catX (jdiv catW (.num 2)))
            (.num (qadd (qadd area.y area.h) 20)) attrsMidLabel c]

/-- The legend (only when more than one group exists). -/
def colLegendEls (area : Area) (grps : List JVal) : List El :=
  if grps.length > 1 then
    grps.enum.flatMap fun p =>
      let legendX := qadd area.x (qmul (qofNat p.1) 120)
      let legendY := qsub area.y 30
      [.rectEl (.num legendX) (.num legendY) (.num 12) (.num 12)
         (attrFill (colorAt colColors p.1)),
       .textEl (.num (qadd legendX 18)) (.num (qadd legendY 9))
         attrsLegendText (valToString p.2)]
  else []

/-- `generateColumnChart` of the source. -/
def generateColumnChart (data : DataArg) (width height : ℚ)
    (o : ChartOptions) : List El :=
  match data with
  | .notArr => [noDataEl]
  | .arr [] => [noDataEl]
  | .arr items =>
    let area := chartAreaOf width height
    let acc := colCollect items
    let maxV := colMaxFinal acc.gd
    let catW := jdiv (.num area.w) (.num (qofNat acc.cats.length))
    let barW := jdiv catW (.num (qmul (qofNat acc.grps.length) (mkRat 6 5)))
    colLegendEls area acc.grps
      ++ ((acc.cats.enum.flatMap fun p => colCatEls area acc catW barW maxV p.1 p.2)
        ++ axesEls area ++ axisTitleEls area o)

/-! ## The line engine -/

/-- A normalized `{label, value}` point. -/
structure LPoint where
  label : String
  value : JNum
deriving DecidableEq

def unknownLabel : String := "Unknown"

/-- Point normalization shared by the line and area engines: prefers
`{time, value}`, falls back to `{category, value}`, else
`{'Unknown', Number(item) || 0}`. -/
def lineNormalize (it : JItem) : LPoint :=
  match it with
  | .obj o =>
    match o.time, o.value with
    | some t, some v => ⟨valToString t, valToNum v⟩
    | _, _ =>
      match o.category, o.value with
      | some c, some v => ⟨valToString c, valToNum v⟩
      | _, _ => ⟨unknownLabel, itemNumOr0 it⟩
  | .prim _ => ⟨unknownLabel, itemNumOr0 it⟩

/-- `chartArea.x + (index / Math.max(points.length - 1, 1)) * chartArea.width`. -/
def lineXAt (area : Area) (n : ℕ) (i : ℕ) : JNum :=
  jadd (.num area.x)
    (jmul (jdiv (.num (qofNat i)) (.num (qofNat (max (n - 1) 1)))) (.num area.w))

/-- `chartArea.y + chartArea.height - ((point.value - minValue) / range) * chartArea.height`. -/
def lineYAt (area : Area) (minV range : JNum) (p : LPoint) : JNum :=
  jsub (.num (qadd area.y area.h))
    (jmul (jdiv (jsub p.value minV) range) (.num area.h))

def pathTail : List (JNum × JNum) → String
  | [] => ""
  | p :: rest => " L " ++ jToString p.1 ++ " " ++ jToString p.2 ++ pathTail rest

/-- The path `d` string accumulated point by point (`M` then `L`). -/
def pathDFrom : List (JNum × JNum) → String
  | [] => ""
  | p :: rest => "M " ++ jToString p.1 ++ " " ++ jToString p.2 ++ pathTail rest

/-- `Math.ceil(a / b)` on nonnegative integers. -/
def jsCeilNat (a b : ℕ) : ℕ := (a + b - 1) / b

/-- `const range = maxValue - minValue || 1`. -/
def lineValueRange (values : List JNum) : JNum :=
  let r0 := jsub (jmaxSpread values) (jminSpread values)
  if jtruthy r0 then r0 else .num 1

/-- Per point: the sampled axis label (every `ceil(n/8)`-th point) and
the always-present value label. -/
def lineLabelEls (area : Area) (n : ℕ) (minV range : JNum)
    (points : List LPoint) : List El :=
  points.enum.flatMap fun p =>
    (if p.1 % jsCeilNat n 8 = 0 then
       [.textEl (lineXAt area n p.1) (.num (qadd (qadd area.y area.h) 20))
          attrsMidLabel p.2.label]
     else [])
      ++ [.textEl (lineXAt area n p.1)
            (jsub (lineYAt area minV range p.2) (.num 10))
            attrsMidFont10 (jToString p.2.value)]

def attrsChartLine : String := " stroke=\"#4285f4\" class=\"chart-line\""

def attrsChartPoint : String := " fill=\"#4285f4\" class=\"chart-point\""

/-- `generateLineChart` of the source. -/
def generateLineChart (data : DataArg) (width height : ℚ)
    (o : ChartOptions) : List El :=
  match data with
  | .notArr => [noDataEl]
  | .arr [] => [noDataEl]
  | .arr items =>
    let area := chartAreaOf width height
    let points := items.map lineNormalize
    let values := points.map (·.value)
    let minV := jminSpread values
    let range := lineValueRange values
    let n := points.length
    let pts := points.enum.map fun p => (lineXAt area n p.1, lineYAt area minV range p.2)
    [El.pathEl (pathDFrom pts) attrsChartLine]
      ++ (pts.map fun xy => El.circleEl xy.1 xy.2 (.num 4) attrsChartPoint)
      ++ lineLabelEls area n minV range points
      ++ (axesEls area ++ axisTitleEls area o)

/-! ## The pie engine -/

/-- Normalization shared by the pie and funnel engines: `{category,
value}` both present gives `{String(category), Number(value)}`, anything
else `{'Unknown', Number(item) || 0}`. -/
def catValNormalize (it : JItem) : LPoint :=
  match it with
  | .obj o =>
    match o.category, o.value with
    | some c, some v => ⟨valToString c, valToNum v⟩
    | _, _ => ⟨unknownLabel, itemNumOr0 it⟩
  | .prim _ => ⟨unknownLabel, itemNumOr0 it⟩

/-- `slices.reduce((sum, slice) => sum + slice.value, 0)`. -/
def pieTotal (slices : List LPoint) : JNum :=
  slices.foldl (fun s p => jadd s p.value) (.num 0)

def noValidPieText : String := "No valid data for pie chart"

/-- The placeholder the pie engine returns when the total is `<= 0`. -/
def noValidPieEl : El := .textEl (.num 400) (.num 300) attrsMidLabel noValidPieText

def pieColors : List String :=
  ["#4285f4", "#ea4335", "#fbbc04", "#34a853", "#9aa0a6", "#ff6d01",
   "#ab47bc", "#26c6da"]

/-- One slice's angle: `(slice.value / total) * 2 * Math.PI`. -/
def pieAngle (pi : ℚ) (total v : JNum) : JNum :=
  jmul (jmul (jdiv v total) (.num 2)) (.num pi)

def attrsPieSlice (color : String) : String :=
  " fill=\"" ++ color ++ "\" stroke=\"#fff\" stroke-width=\"2\""

def attrsPieLabel : String :=
  " text-anchor=\"middle\" class=\"axis-label\" fill=\"white\" font-weight=\"bold\""

/-- JS `Math.min` of two plain numbers. -/
def qmin (a b : ℚ) : ℚ := if qle a b then a else b

/-- The slice loop of the pie engine: threads `currentAngle`, skips
non-positive slices, emits the wedge path and (for angles above 0.2 rad)
the percentage label. -/
def pieSliceEls (env : JsEnv) (cX cY radius : ℚ) (total : JNum) :
    ℕ → JNum → List LPoint → List El
  | _, _, [] => []
  | idx, cur, s :: rest =>
    if jleB s.value (.num 0) then pieSliceEls env cX cY radius total (idx + 1) cur rest
    else
      let ang := pieAngle env.pi total s.value
      let endA := jadd cur ang
      let x1 := jadd (.num cX) (jmul (.num radius) (env.cos cur))
      let y1 := jadd (.num cY) (jmul (.num radius) (env.sin cur))
      let x2 := jadd (.num cX) (jmul (.num radius) (env.cos endA))
      let y2 := jadd (.num cY) (jmul (.num radius) (env.sin endA))
      let laf := if jgtB ang (.num env.pi) then "1" else "0"
      let d := "M " ++ ratToString cX ++ " " ++ ratToString cY ++ " L "
        ++ jToString x1 ++ " " ++ jToString y1 ++ " A " ++ ratToString radius
        ++ " " ++ ratToString radius ++ " 0 " ++ laf ++ " 1 " ++ jToString x2
        ++ " " ++ jToString y2 ++ " Z"
      let labelAngle := jadd cur (jdiv ang (.num 2))
      let labelR := qmul radius (mkRat 7 10)
      let lx := jadd (.num cX) (jmul (.num labelR) (env.cos labelAngle))
      let ly := jadd (.num cY) (jmul (.num labelR) (env.sin labelAngle))
      let pct := jToFixed 1 (jmul (jdiv s.value total) (.num 100))
      [El.pathEl d (attrsPieSlice (colorAt pieColors idx))]
        ++ (if jgtB ang (.num (mkRat 1 5)) then
              [El.textEl lx ly attrsPieLabel (pct ++ "%")]
            else [])
        ++ pieSliceEls env cX cY radius total (idx + 1) endA rest

/-- The legend entries (accumulated separately in the source and
appended after all slices; skipped slices get no entry). -/
def pieLegendEls (cX cY radius : ℚ) (slices : List LPoint) : List El :=
  slices.enum.flatMap fun p =>
    if jleB p.2.value (.num 0) then []
    else
      let legendY := qadd (qsub cY radius) (qmul (qofNat p.1) 20)
      [.rectEl (.num (qadd (qadd cX radius) 30)) (.num (qsub legendY 8))
         (.num 12) (.num 12) (attrFill (colorAt pieColors p.1)),
       .textEl (.num (qadd (qadd cX radius) 48)) (.num (qadd legendY 3))
         attrsLegendText (p.2.label ++ ": " ++ jToString p.2.value)]

/-- The successive values of the pie loop's `currentAngle` at the head
of each slice iteration (mirrors the recursion of `pieSliceEls`):
skipped non-positive slices leave the angle unchanged. -/
def pieStarts (pi : ℚ) (total : JNum) : JNum → List JNum → List JNum
  | _, [] => []
  | cur, v :: rest =>
    cur :: (if jleB v (.num 0) then pieStarts pi total cur rest
            else pieStarts pi total (jadd cur (pieAngle pi total v)) rest)

/-- `generatePieChart` of the source. -/
def generatePieChart (env : JsEnv) (data : DataArg) (width height : ℚ)
    (_o : ChartOptions) : List El :=
  match data with
  | .notArr => [noDataEl]
  | .arr [] => [noDataEl]
  | .arr items =>
    let cX := qdiv width 2
    let cY := qadd (qdiv height 2) 20
    let radius := qdiv (qmin width height) 4
    let slices := items.map catValNormalize
    let total := pieTotal slices
    if jleB total (.num 0) then [noValidPieEl]
    else
      pieSliceEls env cX cY radius total 0 (.num (qdiv (qneg env.pi) 2)) slices
        ++ pieLegendEls cX cY radius slices

/-! ## The area engine -/

def attrsChartArea : String := " fill=\"#4285f4\" class=\"chart-area\""

/-- `generateAreaChart` of the source (line normalization and scaling,
a closed baseline fill path plus the stroked line path). -/
def generateAreaChart (data : DataArg) (width height : ℚ)
    (_o : ChartOptions) : List El :=
  match data with
  | .notArr => [noDataEl]
  | .arr [] => [noDataEl]
  | .arr items =>
    let area := chartAreaOf width height
    let points := items.map lineNormalize
    let values := points.map (·.value)
    let minV := jminSpread values
    let range := lineValueRange values
    let n := points.length
    let pts := points.enum.map fun p => (lineXAt area n p.1, lineYAt area minV range p.2)
    let areaPath := "M " ++ ratToString area.x ++ " "
      ++ ratToString (qadd area.y area.h) ++ pathTail pts ++ " L "
      ++ ratToString (qadd area.x area.w) ++ " "
      ++ ratToString (qadd area.y area.h) ++ " Z"
    [El.pathEl areaPath attrsChartArea, El.pathEl (pathDFrom pts) attrsChartLine]
      ++ axesEls area

/-! ## The scatter engine -/

/-- `generateScatterChart` of the source: numeric `{x, y}` points are
scaled against the fixed `[0,100]` domain; anything else falls back to
index-proportional x and a pseudo-random y. -/
def generateScatterChart (env : JsEnv) (data : DataArg) (width height : ℚ)
    (_o : ChartOptions) : List El :=
  match data with
  | .notArr => [noDataEl]
  | .arr [] => [noDataEl]
  | .arr items =>
    let area := chartAreaOf width height
    (items.enum.flatMap fun p =>
      let fallback :=
        (jadd (.num area.x)
           (jmul (jdiv (.num (qofNat p.1)) (.num (qofNat items.length))) (.num area.w)),
         jsub (.num (qadd area.y area.h)) (jmul (.num (env.rand p.1)) (.num area.h)))
      let xy :=
        match p.2 with
        | .obj ob =>
          match ob.x, ob.y with
          | some vx, some vy =>
            (jadd (.num area.x) (jmul (jdiv (valToNum vx) (.num 100)) (.num area.w)),
             jsub (.num (qadd area.y area.h))
               (jmul (jdiv (valToNum vy) (.num 100)) (.num area.h)))
          | _, _ => fallback
        | .prim _ => fallback
      [El.circleEl xy.1 xy.2 (.num 5) attrsChartPoint])
      ++ axesEls area

/-! ## The radar engine -/

/-- The insertion-ordered dimension set and group map of the radar
engine. -/
structure RadAcc where
  dims : List String
  gd : List (String × List (String × JNum))
deriving DecidableEq

/-- One step of the radar grouping `forEach`: the item counts iff it is
an object with truthy `name`, truthy `group` and present `value`. -/
def radStep (acc : RadAcc) (it : JItem) : RadAcc :=
  match it with
  | .obj o =>
    match o.name, o.group, o.value with
    | some nv, some gv, some vv =>
      if valTruthy nv && valTruthy gv then
        let nm := valToString nv
        let g := valToString gv
        let v := valToNum vv
        { dims := addUniqueStr acc.dims nm
          gd := alSet acc.gd g (alSet ((alGet acc.gd g).getD []) nm v) }
      else acc
    | _, _, _ => acc
  | .prim _ => acc

def noValidRadarText : String := "No valid radar data"

def noValidRadarEl : El := .textEl (.num 400) (.num 300) attrsMidLabel noValidRadarText

def radarColors : List String := ["#4285f4", "#ea4335", "#fbbc04", "#34a853"]

/-- A dimension spoke's angle: `(index / dimensionCount) * 2π − π/2`. -/
def radAngle (pi : ℚ) (n i : ℕ) : ℚ :=
  qsub (qmul (qmul (qdiv (qofNat i) (qofNat n)) 2) pi) (qdiv pi 2)

def attrsRadarGridCircle : String := " fill=\"none\" stroke=\"#ddd\" stroke-width=\"1\""

def attrsRadarSpoke : String := " stroke=\"#ddd\" stroke-width=\"1\""

def attrsRadarPoly (color : String) : String :=
  " fill=\"" ++ color ++ "\" fill-opacity=\"0.3\" stroke=\"" ++ color
    ++ "\" stroke-width=\"2\""

/-- `generateRadarChart` of the source. -/
def generateRadarChart (env : JsEnv) (data : DataArg) (width height : ℚ)
    (_o : ChartOptions) : List El :=
  match data with
  | .notArr => [noDataEl]
  | .arr [] => [noDataEl]
  | .arr items =>
    let cX := qdiv width 2
    let cY := qdiv height 2
    let radius := qdiv (qmin width height) 3
    let acc := items.foldl radStep ⟨[], []⟩
    if acc.dims.length = 0 then [noValidRadarEl]
    else
      ((List.range' 1 5).map fun i =>
        El.circleEl (.num cX) (.num cY) (.num (qdiv (qmul radius (qofNat i)) 5))
          attrsRadarGridCircle)
        ++ (acc.dims.enum.flatMap fun p =>
          let ang := radAngle env.pi acc.dims.length p.1
          let x := jadd (.num cX) (jmul (.num radius) (env.cos (.num ang)))
          let y := jadd (.num cY) (jmul (.num radius) (env.sin (.num ang)))
          let lx := jadd (.num cX) (jmul (.num (qadd radius 20)) (env.cos (.num ang)))
          let ly := jadd (.num cY) (jmul (.num (qadd radius 20)) (env.sin (.num ang)))
          [El.lineEl (.num cX) (.num cY) x y attrsRadarSpoke,
           El.textEl lx ly attrsMidLabel p.2])
        ++ (acc.gd.enum.flatMap fun pg =>
          let color := colorAt radarColors pg.1
          let polyPts := acc.dims.enum.map fun pd =>
            let value := jGetOr0 (alGet pg.2.2 pd.2)
            let normV := jdiv value (.num 100)
            let ang := radAngle env.pi acc.dims.length pd.1
            (jadd (.num cX) (jmul (jmul (.num radius) normV) (env.cos (.num ang))),
             jadd (.num cY) (jmul (jmul (.num radius) normV) (env.sin (.num ang))))
          let legendY := qadd 100 (qmul (qofNat pg.1) 20)
          [El.pathEl (pathDFrom polyPts ++ " Z") (attrsRadarPoly color),
           El.rectEl (.num 20) (.num (qsub legendY 8)) (.num 12) (.num 12)
             (attrFill color),
           El.textEl (.num 38) (.num (qadd legendY 3)) attrsLegendText pg.2.1])

/-! ## The dual-axes engine -/

/-- One row of the legacy dual-axes format:
`{category: String(item.category || item.time || 'Unknown'),
barValue: Number(item.bar || item.value || 0),
lineValue: Number(item.line || item.value2 || 0)}`. -/
def dualLegacyRow (it : JItem) : String × JNum × JNum :=
  match it with
  | .obj o =>
    (valToString (jvalOr o.category (jvalOr o.time (.vstr unknownLabel))),
     valToNum (jvalOr o.bar (jvalOr o.value (.vnum 0))),
     valToNum (jvalOr o.line (jvalOr o.value2 (.vnum 0))))
  | .prim _ => (unknownLabel, .num 0, .num 0)

/-- The `(barData, lineData, categories)` arrays the dual-axes engine
extracts: the series format when both `options.series` and
`options.categories` are present, else the legacy per-row format. -/
def dualExtract (data : DataArg) (o : ChartOptions) :
    List JNum × List JNum × List String :=
  match o.series, o.categories with
  | some sl, some cl =>
    (((sl.find? fun s => s.stype == "column").map fun s => s.sdata.map JNum.num).getD [],
     ((sl.find? fun s => s.stype == "line").map fun s => s.sdata.map JNum.num).getD [],
     cl)
  | _, _ =>
    match data with
    | .arr (it :: rest) =>
      let rows := (it :: rest).map dualLegacyRow
      (rows.map fun r => r.2.1, rows.map fun r => r.2.2, rows.map fun r => r.1)
    | _ => ([], [], [])

def colorBlue : String := "#4285f4"

def colorRed : String := "#ea4335"

def attrsDualBar : String := " fill=\"#4285f4\" stroke=\"#fff\" stroke-width=\"1\""

def attrsDualPoint : String := " fill=\"#ea4335\" stroke=\"#fff\" stroke-width=\"2\""

def attrsDualPath : String := " stroke=\"#ea4335\" fill=\"none\" stroke-width=\"2\""

def attrsDualLegendLine : String := " stroke=\"#ea4335\" stroke-width=\"2\""

def attrsTickMark : String := " stroke=\"#ddd\" stroke-width=\"1\""

/-- `chartArea.x + (i + 0.5) * (chartArea.width / dataLength)`. -/
def dualXAt (area : Area) (dataLen : ℕ) (i : ℕ) : ℚ :=
  qadd area.x (qmul (qadd (qofNat i) qhalf) (qdiv area.w (qofNat dataLen)))

/-- The bar rectangles (only positive entries), their value labels and
the category labels. -/
def dualBarsEls (area : Area) (dataLen : ℕ) (barData : List JNum)
    (cats : List String) (maxBar : JNum) (barW : ℚ) : List El :=
  (List.range dataLen).flatMap fun i =>
    let x := dualXAt area dataLen i
    (if i < barData.length then
       (if jgtB (barData.getD i (.num 0)) (.num 0) then
          let barH := jmul (jdiv (barData.getD i (.num 0)) maxBar) (.num area.h)
          let y := jsub (.num (qadd area.y area.h)) barH
          [El.rectEl (.num (qsub x (qdiv barW 2))) y (.num barW) barH attrsDualBar]
            ++ (if jgtB barH (.num 20) then
                  [El.textEl (.num x) (jsub y (.num 5)) attrsMidFont10
                     (jToString (barData.getD i (.num 0)))]
                else [])
        else [])
     else [])
      ++ (if i < cats.length then
            [El.textEl (.num x) (.num (qadd (qadd area.y area.h) 20))
               attrsMidLabel (cats.getD i "")]
          else [])

/-- The line points (x, y) of the dual-axes right-axis series. -/
def dualLinePts (area : Area) (dataLen : ℕ) (lineData : List JNum)
    (maxLine : JNum) : List (JNum × JNum) :=
  (List.range (min lineData.length dataLen)).map fun i =>
    (.num (dualXAt area dataLen i),
     jsub (.num (qadd area.y area.h))
       (jmul (jdiv (lineData.getD i (.num 0)) maxLine) (.num area.h)))

/-- The line markers and value labels. -/
def dualLineEls (area : Area) (dataLen : ℕ) (lineData : List JNum)
    (maxLine : JNum) : List El :=
  (List.range (min lineData.length dataLen)).flatMap fun i =>
    let x := dualXAt area dataLen i
    let y := jsub (.num (qadd area.y area.h))
      (jmul (jdiv (lineData.getD i (.num 0)) maxLine) (.num area.h))
    [El.circleEl (.num x) y (.num 4) attrsDualPoint,
     El.textEl (.num x) (jsub y (.num 10)) attrsMidFont10
       (jToString (lineData.getD i (.num 0)))]

/-- The three axis lines of the dual-axes engine. -/
def dualAxesLines (area : Area) : List El :=
  [El.lineEl (.num area.x) (.num area.y) (.num area.x)
     (.num (qadd area.y area.h)) attrsAxis,
   El.lineEl (.num (qadd area.x area.w)) (.num area.y)
     (.num (qadd area.x area.w)) (.num (qadd area.y area.h)) attrsAxis,
   El.lineEl (.num area.x) (.num (qadd area.y area.h))
     (.num (qadd area.x area.w)) (.num (qadd area.y area.h)) attrsAxis]

/-- The left-axis (bar) tick labels, `i = 0..5`, each
`Math.round((maxBarValue/5)·i)`, with tick marks for `i > 0`. -/
def dualLeftTickEls (area : Area) (maxBar : JNum) : List El :=
  (List.range 6).flatMap fun i =>
    let v := jmul (jdiv maxBar (.num 5)) (.num (qofNat i))
    let y := qsub (qadd area.y area.h) (qmul (qdiv (qofNat i) 5) area.h)
    [El.textEl (.num (qsub area.x 10)) (.num (qadd y 4)) attrsEndLabel
       (jToString (jround v))]
      ++ (if 0 < i then
            [El.lineEl (.num (qsub area.x 5)) (.num y) (.num area.x) (.num y)
               attrsTickMark]
          else [])

/-- The right-axis (line) tick labels, `i = 0..5`, each
`((maxLineValue/5)·i).toFixed(2)`, with tick marks for `i > 0`. -/
def dualRightTickEls (area : Area) (maxLine : JNum) : List El :=
  (List.range 6).flatMap fun i =>
    let v := jmul (jdiv maxLine (.num 5)) (.num (qofNat i))
    let y := qsub (qadd area.y area.h) (qmul (qdiv (qofNat i) 5) area.h)
    [El.textEl (.num (qadd (qadd area.x area.w) 10)) (.num (qadd y 4))
       attrsStartLabel (jToFixed 2 v)]
      ++ (if 0 < i then
            [El.lineEl (.num (qadd area.x area.w)) (.num y)
               (.num (qadd (qadd area.x area.w) 5)) (.num y) attrsTickMark]
          else [])

def attrsDualLeftTitle (area : Area) : String :=
  " text-anchor=\"middle\" class=\"axis-title\" transform=\"rotate(-90, "
    ++ ratToString (qsub area.x 50) ++ ", "
    ++ ratToString (qadd area.y (qdiv area.h 2)) ++ ")\""

def attrsDualRightTitle (area : Area) : String :=
  " text-anchor=\"middle\" class=\"axis-title\" transform=\"rotate(90, "
    ++ ratToString (qadd (qadd area.x area.w) 60) ++ ", "
    ++ ratToString (qadd area.y (qdiv area.h 2)) ++ ")\""

/-- The conditional axis titles of the dual-axes engine. -/
def dualTitleEls (area : Area) (o : ChartOptions) : List El :=
  (match (o.series.getD []).get? 0 with
   | some s0 =>
     (match s0.axisYTitle with
      | some t =>
        if t == "" then []
        else [El.textEl (.num (qsub area.x 50))
          (.num (qadd area.y (qdiv area.h 2))) (attrsDualLeftTitle area) t]
      | none => [])
   | none => []) ++
  (match (o.series.getD []).get? 1 with
   | some s1 =>
     (match s1.axisYTitle with
      | some t =>
        if t == "" then []
        else [El.textEl (.num (qadd (qadd area.x area.w) 60))
          (.num (qadd area.y (qdiv area.h 2))) (attrsDualRightTitle area) t]
      | none => [])
   | none => []) ++
  (match o.axisXTitle with
   | some t =>
     if t == "" then []
     else [.textEl (.num (qadd area.x (qdiv area.w 2)))
        (.num (qadd (qadd area.y area.h) 50)) attrsAxisTitle t]
   | none => [])

def barsWord : String := "Bars"

def lineWord : String := "Line"

/-- The fixed two-entry legend of the dual-axes engine. -/
def dualLegendEls (area : Area) : List El :=
  [El.rectEl (.num area.x) (.num (qsub area.y 40)) (.num 12) (.num 12)
     (attrFill colorBlue),
   El.textEl (.num (qadd area.x 18)) (.num (qsub area.y 31)) attrsLegendText barsWord,
   El.lineEl (.num (qadd area.x 80)) (.num (qsub area.y 34))
     (.num (qadd area.x 92)) (.num (qsub area.y 34)) attrsDualLegendLine,
   El.circleEl (.num (qadd area.x 86)) (.num (qsub area.y 34)) (.num 3)
     (attrFill colorRed),
   El.textEl (.num (qadd area.x 98)) (.num (qsub area.y 31)) attrsLegendText lineWord]

/-- `generateDualAxesChart` of the source.  The two axis maxima are
`Math.max(...series, 1)`, computed independently. -/
def generateDualAxesChart (data : DataArg) (width height : ℚ)
    (o : ChartOptions) : List El :=
  let area := chartAreaOf width height
  let e := dualExtract data o
  let barData := e.1
  let lineData := e.2.1
  let cats := e.2.2
  if barData.length = 0 ∧ lineData.length = 0 then [noDataEl]
  else
    let maxBar := jmaxSpread (barData ++ [.num 1])
    let maxLine := jmaxSpread (lineData ++ [.num 1])
    let dataLen := max (max barData.length lineData.length) cats.length
    let barW := qdiv area.w (qmul (qofNat dataLen) (mkRat 3 2))
    dualBarsEls area dataLen barData cats maxBar barW
      ++ dualLineEls area dataLen lineData maxLine
      ++ [El.pathEl (pathDFrom (dualLinePts area dataLen lineData maxLine)) attrsDualPath]
      ++ dualAxesLines area
      ++ dualLeftTickEls area maxBar
      ++ dualRightTickEls area maxLine
      ++ dualTitleEls area o
      ++ dualLegendEls area

/-! ## The histogram engine -/

/-- The numeric coercion of one histogram item (`Number(item.value)` for
an object with `value` present, `Number(item) || 0` otherwise). -/
def histItemNum : JItem → JNum
  | .obj o =>
    match o.value with
    | some v => valToNum v
    | none => itemNumOr0 (.obj o)
  | .prim v => itemNumOr0 (.prim v)

/-- The extracted values after the `!isNaN` filter (`valToNum` never
produces an infinity, so dropping exactly `NaN` is the same filter). -/
def histValues (items : List JItem) : List ℚ :=
  (items.map histItemNum).filterMap fun j =>
    match j with
    | .num q => some q
    | _ => none

def noValidNumericText : String := "No valid numeric data"

def noValidNumericEl : El :=
  .textEl (.num 400) (.num 300) attrsMidLabel noValidNumericText

/-- JS `Math.max` of two plain numbers. -/
def qmax (a b : ℚ) : ℚ := if qle a b then b else a

/-- `binWidth = (maxValue - minValue) / bins` — the source applies no
zero default here. -/
def histBinWidth (mn mx : ℚ) (bins : ℕ) : ℚ := qdiv (qsub mx mn) (qofNat bins)

/-- `Math.min(Math.floor((value - minValue) / binWidth), bins - 1)` with
JS division semantics (`0/0 = NaN`, `positive/0 = Infinity`). -/
def histBinIndex (mn binW : ℚ) (bins : ℕ) (v : ℚ) : JNum :=
  jmin (jfloor (jdiv (.num (qsub v mn)) (.num binW))) (.num (qofNat (bins - 1)))

/-- `histogram[binIndex]++`: only an integer index inside the array
bounds modifies an element; a `NaN` (or fractional/out-of-range) index
writes a non-element property that no later read sees. -/
def bumpBin (freqs : List ℕ) (idx : JNum) : List ℕ :=
  match idx with
  | .num q =>
    if q.den = 1 ∧ 0 ≤ q.num ∧ q.num < (freqs.length : ℤ) then
      freqs.set q.num.toNat (freqs.getD q.num.toNat 0 + 1)
    else freqs
  | _ => freqs

/-- The bin frequency array after the binning `forEach`. -/
def histFreqs (mn binW : ℚ) (bins : ℕ) (values : List ℚ) : List ℕ :=
  values.foldl (fun f v => bumpBin f (histBinIndex mn binW bins v))
    (List.replicate bins 0)

/-- `const bins = options.bins || 10`. -/
def histBins (o : ChartOptions) : ℕ :=
  match o.bins with
  | some b => if b = 0 then 10 else b
  | none => 10

def attrsHistBar : String := " fill=\"#4285f4\" stroke=\"#fff\" stroke-width=\"1\""

def histXTitleText : String := "Value Range"

def histYTitleText : String := "Frequency"

/-- `generateHistogramChart` of the source. -/
def generateHistogramChart (data : DataArg) (width height : ℚ)
    (o : ChartOptions) : List El :=
  match data with
  | .notArr => [noDataEl]
  | .arr [] => [noDataEl]
  | .arr items =>
    let area := chartAreaOf width height
    match histValues items with
    | [] => [noValidNumericEl]
    | v0 :: vrest =>
      let values := v0 :: vrest
      let bins := histBins o
      let mn := vrest.foldl qmin v0
      let mx := vrest.foldl qmax v0
      let binW := histBinWidth mn mx bins
      let freqs := histFreqs mn binW bins values
      let maxFreq := jmaxSpread (freqs.map fun n => .num (qofNat n))
      let barW := qdiv area.w (qofNat bins)
      (freqs.enum.flatMap fun p =>
        let x := qadd area.x (qmul (qofNat p.1) barW)
        let barH := jmul (jdiv (.num (qofNat p.2)) (jmax maxFreq (.num 1))) (.num area.h)
        let y := jsub (.num (qadd area.y area.h)) barH
        [El.rectEl (.num x) y (.num (qsub barW 2)) barH attrsHistBar]
          ++ (if p.1 % jsCeilNat bins 6 = 0 then
                [El.textEl (.num (qadd x (qdiv barW 2)))
                   (.num (qadd (qadd area.y area.h) 20)) attrsMidLabel
                   (ratToFixed 1 (qadd mn (qmul (qofNat p.1) binW)))]
              else [])
          ++ (if jgtB barH (.num 15) then
                [El.textEl (.num (qadd x (qdiv barW 2))) (jsub y (.num 5))
                   attrsMidLabel (toString p.2)]
              else []))
        ++ axesEls area
        ++ [El.textEl (.num (qadd area.x (qdiv area.w 2)))
              (.num (qadd (qadd area.y area.h) 50)) attrsAxisTitle histXTitleText,
            El.textEl (.num 30) (.num (qadd area.y (qdiv area.h 2)))
              (attrsYTitle (qadd area.y (qdiv area.h 2))) histYTitleText]

/-! ## The funnel engine -/

def funnelColors : List String :=
  ["#4285f4", "#5bb974", "#fbbc04", "#ea4335", "#9aa0a6", "#ff6d01"]

/-- The funnel canvas area `{x: 100, y: 80, width: W-200, height: H-160}`. -/
def funnelAreaOf (width height : ℚ) : Area :=
  ⟨100, 80, qsub width 200, qsub height 160⟩

/-- `Math.max(...stages.map(s => s.value))` — the source applies no zero
default to this divisor. -/
def funnelMaxValue (stages : List LPoint) : JNum :=
  jmaxSpread (stages.map fun s => s.value)

/-- `stageWidth = chartArea.width * widthRatio`. -/
def funnelStageWidth (areaW : ℚ) (frac : JNum) : JNum := jmul (.num areaW) frac

def attrsFunnelShape (color : String) : String :=
  " fill=\"" ++ color ++ "\" stroke=\"#fff\" stroke-width=\"2\""

def attrsFunnelLabel : String :=
  " text-anchor=\"middle\" class=\"axis-label\" fill=\"white\" font-weight=\"bold\""

def attrsFunnelValue : String :=
  " text-anchor=\"middle\" class=\"axis-label\" fill=\"white\""

def attrsPlainLabel : String := " class=\"axis-label\""

def lpZero : LPoint := { label := "", value := .num 0 }

/-- The conversion-rate text emitted to the right of stage `i > 0`:
`((stage.value / stages[i-1].value) * 100).toFixed(1)` percent. -/
def funnelConvEl (area : Area) (stageH : ℚ) (stages : List LPoint) (i : ℕ) : El :=
  let y := qadd area.y (qmul (qofNat i) stageH)
  let labelY := qadd y (qdiv stageH 2)
  let rate := jToFixed 1 (jmul (jdiv (stages.getD i lpZero).value
    ((stages.getD (i - 1) lpZero).value)) (.num 100))
  .textEl (.num (qadd (qadd area.x area.w) 10)) (.num labelY) attrsPlainLabel
    (rate ++ "%")

/-- The shape, the two centered labels and (for `i > 0`) the conversion
text of one funnel stage. -/
def funnelStageEls (env : JsEnv) (area : Area) (stageH : ℚ) (maxV : JNum)
    (stages : List LPoint) (i : ℕ) (s : LPoint) : List El :=
  let frac := jdiv s.value maxV
  let stageW := funnelStageWidth area.w frac
  let x := jadd (.num area.x) (jdiv (jsub (.num area.w) stageW) (.num 2))
  let y := qadd area.y (qmul (qofNat i) stageH)
  let color := colorAt funnelColors i
  let shape :=
    if i = stages.length - 1 then
      [El.rectEl x (.num y) stageW (.num (qsub stageH 10)) (attrsFunnelShape color)]
    else
      let nextFrac :=
        match stages.get? (i + 1) with
        | some ns => jdiv ns.value maxV
        | none => jmul frac (.num (mkRat 4 5))
      let nextW := funnelStageWidth area.w nextFrac
      let nextX := jadd (.num area.x) (jdiv (jsub (.num area.w) nextW) (.num 2))
      let pts := jToString x ++ "," ++ ratToString y ++ " "
        ++ jToString (jadd x stageW) ++ "," ++ ratToString y ++ " "
        ++ jToString (jadd nextX nextW) ++ ","
        ++ ratToString (qsub (qadd y stageH) 10) ++ " " ++ jToString nextX
        ++ "," ++ ratToString (qsub (qadd y stageH) 10)
      [El.polygonEl pts (attrsFunnelShape color)]
  let labelX := qadd area.x (qdiv area.w 2)
  let labelY := qadd y (qdiv stageH 2)
  shape
    ++ [El.textEl (.num labelX) (.num (qsub labelY 5)) attrsFunnelLabel s.label,
        El.textEl (.num labelX) (.num (qadd labelY 10)) attrsFunnelValue
          (jToLocale env s.value)]
    ++ (if 0 < i then [funnelConvEl area stageH stages i] else [])

/-- The stage loop of the funnel engine. -/
def funnelLoop (env : JsEnv) (area : Area) (stageH : ℚ) (maxV : JNum)
    (stages : List LPoint) : ℕ → List LPoint → List El
  | _, [] => []
  | i, s :: rest =>
    funnelStageEls env area stageH maxV stages i s
      ++ funnelLoop env area stageH maxV stages (i + 1) rest

/-- `generateFunnelChart` of the source. -/
def generateFunnelChart (env : JsEnv) (data : DataArg) (width height : ℚ)
    (_o : ChartOptions) : List El :=
  match data with
  | .notArr => [noDataEl]
  | .arr [] => [noDataEl]
  | .arr items =>
    let area := funnelAreaOf width height
    let stages := items.map catValNormalize
    let maxV := funnelMaxValue stages
    let stageH := qdiv area.h (qofNat stages.length)
    funnelLoop env area stageH maxV stages 0 stages

/-! ## Dispatcher and document assembler -/

/-- `type.toLowerCase()` (ASCII; `String.mapAux` of core does not reduce
in the kernel, so the map is written on the character list). -/
def jsToLower (s : String) : String := ⟨s.data.map Char.toLower⟩

/-- `type.charAt(0).toUpperCase() + type.slice(1)`. -/
def jsCapitalize (s : String) : String :=
  match s.data with
  | [] => ""
  | c :: rest => ⟨c.toUpper :: rest⟩

/-- The default title `` `${capitalized type} Chart` ``. -/
def defaultTitle (ty : String) : String := jsCapitalize ty ++ " Chart"

/-- `options.title || default` (an empty title is falsy). -/
def strOr (o : Option String) (d : String) : String :=
  match o with
  | some s => if s == "" then d else s
  | none => d

/-- `options.width || 800`. -/
def optWidth (o : ChartOptions) : ℚ :=
  match o.width with
  | some q => if q = 0 then 800 else q
  | none => 800

/-- `options.height || 600`. -/
def optHeight (o : ChartOptions) : ℚ :=
  match o.height with
  | some q => if q = 0 then 600 else q
  | none => 600

/-- `options.data || []`. -/
def dataOf (o : ChartOptions) : DataArg :=
  match o.data with
  | some d => d
  | none => .arr []

/-- The `switch (type.toLowerCase())` dispatch; anything unmatched falls
back to the column engine. -/
def dispatchChart (env : JsEnv) (ty : String) (data : DataArg)
    (w h : ℚ) (o : ChartOptions) : List El :=
  let t := jsToLower ty
  if t == "bar" then generateColumnChart data w h o
  else if t == "column" then generateColumnChart data w h o
  else if t == "line" then generateLineChart data w h o
  else if t == "pie" then generatePieChart env data w h o
  else if t == "area" then generateAreaChart data w h o
  else if t == "scatter" then generateScatterChart env data w h o
  else if t == "radar" then generateRadarChart env data w h o
  else if t == "funnel" then generateFunnelChart env data w h o
  else if t == "dual-axes" then generateDualAxesChart data w h o
  else if t == "histogram" then generateHistogramChart data w h o
  else generateColumnChart data w h o

def xmlDecl : String := "<?xml version=\"1.0\" encoding=\"UTF-8\"?>\n"

/-- The root element open tag, sized by the (defaulted) requested width
and height. -/
def svgOpenTag (w h : ℚ) : String :=
  "<svg width=\"" ++ ratToString w ++ "\" height=\"" ++ ratToString h
    ++ "\" xmlns=\"http://www.w3.org/2000/svg\">"

/-- The fixed embedded style block (`{`/`}` written as `\x7b`/`\x7d`). -/
def styleBlock : String :=
  "  <style>\n    .chart-title \x7b font-family: Arial, sans-serif; font-size: 20px; font-weight: bold; text-anchor: middle; fill: #333; \x7d\n    .axis-label \x7b font-family: Arial, sans-serif; font-size: 12px; fill: #666; \x7d\n    .axis-title \x7b font-family: Arial, sans-serif; font-size: 14px; font-weight: bold; fill: #333; \x7d\n    .chart-bar \x7b stroke: #fff; stroke-width: 1; \x7d\n    .chart-line \x7b fill: none; stroke-width: 2; \x7d\n    .chart-point \x7b stroke-width: 2; \x7d\n    .chart-area \x7b fill-opacity: 0.3; \x7d\n    .axis \x7b stroke: #333; stroke-width: 1; \x7d\n    .legend-text \x7b font-family: Arial, sans-serif; font-size: 12px; fill: #333; \x7d\n  </style>"

/-- Everything of the document template before the interpolated title. -/
def docBeforeTitle (w h : ℚ) : String :=
  xmlDecl ++ (svgOpenTag w h ++ ("\n" ++ (styleBlock
    ++ ("\n  \n  <!-- Chart Title -->\n  <text x=\"" ++ (ratToString (qdiv w 2)
      ++ "\" y=\"30\" class=\"chart-title\">")))))

/-- Between the title and the interpolated chart fragment. -/
def docAfterTitle : String := "</text>\n  \n  <!-- Chart Content -->\n  "

def footerNoticeText : String := "Generated locally - No remote uploads"

/-- Everything of the document template after the chart fragment,
containing the fixed footer notice. -/
def docTail (h : ℚ) : String :=
  "\n  \n  <!-- Generated locally notice -->\n  <text x=\"10\" y=\""
    ++ (ratToString (qsub h 10)
      ++ ("\" class=\"axis-label\" fill=\"#888\">" ++ (footerNoticeText
        ++ "</text>\n</svg>")))

/-- `generateSvgContent` of the source: defaults, dispatch, and the
document template around the engine fragment. -/
def generateSvgContent (env : JsEnv) (ty : String) (o : ChartOptions) : String :=
  let w := optWidth o
  let h := optHeight o
  let title := strOr o.title (defaultTitle ty)
  let data := dataOf o
  docBeforeTitle w h
    ++ (title ++ (docAfterTitle ++ (renderEls (dispatchChart env ty data w h o)
      ++ docTail h)))

/-- A concrete environment for witnesses (its values are irrelevant to
every property proved below). -/
def env0 : JsEnv :=
  { pi := 3, cos := fun _ => .num 0, sin := fun _ => .num 0,
    rand := fun _ => 0, locale := fun q => ratToString q }

def elHasChar (c : Char) (el : El) : Bool := decide (c ∈ (renderEl el).data)

/-- Recognizes the column engine's bar-cell rectangles by their exact
attribute text `fill="<palette color>" class="chart-bar"`. -/
def isChartBarRect : El → Bool
  | .rectEl _ _ _ _ attrs => colColors.any fun c => attrs == attrsChartBar c
  | _ => false

/-- A rectangle of height exactly `0`. -/
def rectHeightIs0 : El → Bool
  | .rectEl _ _ _ hgt _ => hgt == .num 0
  | _ => false

/-- Concrete column items: two categories, two groups, but only the two
diagonal `(category, group)` cells present. -/
def cexColItem1 : JItem :=
  .obj { category := some (.vstr "Q1"), group := some (.vstr "A"),
         value := some (.vnum 1) }

def cexColItem2 : JItem :=
  .obj { category := some (.vstr "Q2"), group := some (.vstr "B"),
         value := some (.vnum 2) }

/-- Recognizes the funnel conversion-rate texts: they are the only
funnel elements whose attribute text is exactly `class="axis-label"`
(stage labels and values carry `text-anchor`/`fill` attributes too). -/
def isConvText : El → Bool
  | .textEl _ _ attrs _ => attrs == attrsPlainLabel
  | _ => false

/-- Recognizes circle elements. -/
def isCircleEl : El → Bool
  | .circleEl _ _ _ _ => true
  | _ => false

/-- Recognizes the per-point value labels of the line engine (attribute
text `text-anchor="middle" class="axis-label" font-size="10"`). -/
def isValueLabelText : El → Bool
  | .textEl _ _ attrs _ => attrs == attrsMidFont10
  | _ => false

/-- Recognizes a text element by its exact attribute text. -/
def isTickText (target : String) : El → Bool
  | .textEl _ _ attrs _ => attrs == target
  | _ => false

/-- The dual-axes left-axis tick labels are the only dual-axes text
elements with attribute text `text-anchor="end" class="axis-label"`. -/
def isLeftTick : El → Bool := isTickText attrsEndLabel

/-- The dual-axes right-axis tick labels are the only dual-axes text
elements with attribute text `text-anchor="start" class="axis-label"`. -/
def isRightTick : El → Bool := isTickText attrsStartLabel

/-- A concrete two-series dual-axes option set. -/
def cexDualOpts : ChartOptions :=
  { series := some [⟨"column", [10, 20], none⟩, ⟨"line", [5, 15], none⟩],
    categories := some ["a", "b"] }

/-- `cexDualOpts` with only the line series values changed. -/
def cexDualOpts2 : ChartOptions :=
  { series := some [⟨"column", [10, 20], none⟩, ⟨"line", [500, 1], none⟩],
    categories := some ["a", "b"] }

/-- JS summation `reduce((s, x) => s + x, 0)` over a list of numbers. -/
def jsum (l : List JNum) : JNum := l.foldl jadd (.num 0)

/-- Concrete pie items for witnesses: three positive slices. -/
def cexPieItems : List JItem :=
  [.obj { category := some (.vstr "a"), value := some (.vnum 1) },
   .obj { category := some (.vstr "b"), value := some (.vnum 2) },
   .obj { category := some (.vstr "c"), value := some (.vnum 3) }]

/-- A column request with a single group labelled `"q"`: the group label
of a single-group chart appears nowhere in the document (no legend). -/
def cexC9Item : JItem :=
  .obj { category := some (.vstr "a"), group := some (.vstr "q"),
         value := some (.vnum 1) }

def cexC9Opts : ChartOptions := { data := some (.arr [cexC9Item]) }

/-- A column request whose title and category labels carry markup
characters. -/
def cexC9WitItem : JItem :=
  .obj { category := some (.vstr "<b>x"), value := some (.vnum 1) }

def cexC9WitOpts : ChartOptions :=
  { title := some "T<i>tle", data := some (.arr [cexC9WitItem]) }

/-! ## String-containment toolbox -/

/-! ## Bridges from the computable wrappers to the `ℚ` field operations -/

theorem qneg_eq (a : ℚ) : qneg a = -a := by
  rw [qneg, ← Rat.neg_divInt, Rat.num_divInt_den]

theorem qadd_eq (a b : ℚ) : qadd a b = a + b := by
  rw [qadd, ← Rat.divInt_add_divInt _ _
    (Int.natCast_ne_zero.mpr a.den_nz) (Int.natCast_ne_zero.mpr b.den_nz),
    Rat.num_divInt_den, Rat.num_divInt_den]

theorem qsub_eq (a b : ℚ) : qsub a b = a - b := by
  have h : a - b = a + (-b) := by ring
  rw [h, ← qadd_eq a (-b), qadd, qsub, Rat.neg_num, Rat.neg_den]
  congr 1
  ring

theorem qmul_eq (a b : ℚ) : qmul a b = a * b := by
  rw [qmul, ← Rat.divInt_mul_divInt', Rat.num_divInt_den, Rat.num_divInt_den]

theorem qdiv_eq (a b : ℚ) : qdiv a b = a / b := by
  rw [qdiv, ← Rat.divInt_div_divInt, Rat.num_divInt_den, Rat.num_divInt_den]

theorem qfloor_eq (a : ℚ) : qfloor a = ⌊a⌋ := by
  rw [qfloor, Rat.floor_def' a, Rat.floor_def]

theorem qle_iff (a b : ℚ) : qle a b = true ↔ a ≤ b := by
  rw [qle, decide_eq_true_iff]
  exact Rat.le_def.symm

theorem qlt_iff (a b : ℚ) : qlt a b = true ↔ a < b := by
  rw [qlt, decide_eq_true_iff]
  exact Rat.lt_def.symm

theorem qofNat_eq (n : ℕ) : qofNat n = (n : ℚ) := by
  rw [qofNat, Rat.divInt_one]
  norm_cast

theorem qofInt_eq (i : ℤ) : qofInt i = (i : ℚ) := by
  rw [qofInt, Rat.divInt_one]


theorem dataAppendNeNil {a : String} (b : String) (h : a.data ≠ []) :
    (a ++ b).data ≠ [] := by
  rw [String.data_append]
  intro he
  exact h (List.append_eq_nil.mp he).1

theorem appendNeEmptyLeft {a : String} (b : String) (h : a.data ≠ []) :
    a ++ b ≠ "" := by
  intro he
  have hd : (a ++ b).data = [] := by rw [he]
  exact dataAppendNeNil b h hd

/-- Lift a containment of the right part through an append. -/
theorem ContainsSub.appLeft {b pat : String} (h : ContainsSub b pat)
    (a : String) : ContainsSub (a ++ b) pat := by
  rcases h with ⟨x, y, hxy⟩
  refine ⟨a.data ++ x, y, ?_⟩
  rw [String.data_append, ← hxy]
  simp [List.append_assoc]

/-- Lift a containment of the left part through an append. -/
theorem ContainsSub.appRight {a pat : String} (h : ContainsSub a pat)
    (b : String) : ContainsSub (a ++ b) pat := by
  rcases h with ⟨x, y, hxy⟩
  refine ⟨x, y ++ b.data, ?_⟩
  rw [String.data_append, ← hxy]
  simp [List.append_assoc]

/-- If some character of the pattern does not occur in `s`, the pattern
is not a substring of `s`. -/
theorem not_containsSub_of_char {s pat : String} {c : Char}
    (hpat : c ∈ pat.data) (hs : c ∉ s.data) : ¬ ContainsSub s pat := by
  rintro ⟨a, b, hab⟩
  apply hs
  rw [← hab]
  simp only [List.append_assoc, List.mem_append]
  exact Or.inr (Or.inl hpat)

theorem charNotMemAppend {c : Char} {a b : String}
    (ha : c ∉ a.data) (hb : c ∉ b.data) : c ∉ (a ++ b).data := by
  rw [String.data_append]
  simp only [List.mem_append]
  rintro (h | h)
  · exact ha h
  · exact hb h

theorem charNotMemRenderEls {c : Char} {els : List El}
    (h : els.all (fun el => !(elHasChar c el)) = true) :
    c ∉ (renderEls els).data := by
  induction els with
  | nil => simp [renderEls]
  | cons e rest ih =>
    rw [List.all_cons, Bool.and_eq_true] at h
    have he : c ∉ (renderEl e).data := by
      have := h.1
      simp only [elHasChar, Bool.not_eq_true', decide_eq_false_iff_not] at this
      exact this
    have hr := ih h.2
    show c ∉ (renderEls (e :: rest)).data
    have : renderEls (e :: rest) = renderEl e ++ renderEls rest := rfl
    rw [this]
    exact charNotMemAppend he hr

/-- A containment through a list element: if `el` occurs in `els`, the
rendered fragment contains its rendering. -/
theorem renderEls_containsSub {els : List El} {el : El} (h : el ∈ els) :
    ContainsSub (renderEls els) (renderEl el) := by
  induction els with
  | nil => cases h
  | cons e rest ih =>
    rcases List.mem_cons.mp h with rfl | hmem
    · refine ⟨[], (renderEls rest).data, ?_⟩
      have : renderEls (el :: rest) = renderEl el ++ renderEls rest := rfl
      rw [this, String.data_append]
      simp
    · exact (ih hmem).appLeft (renderEl e)

/-- The rendering of a text element contains its content verbatim. -/
theorem renderEl_text_containsSub (x y : JNum) (attrs content : String) :
    ContainsSub (renderEl (.textEl x y attrs content)) content := by
  refine containsSub_of_eq_append (a := "<text x=\"" ++ jToString x ++ "\" y=\""
    ++ jToString y ++ "\"" ++ attrs ++ ">") (b := "</text>") ?_
  simp [renderEl, String.append_assoc]

theorem ContainsSub.trans {s t pat : String} (h1 : ContainsSub s t)
    (h2 : ContainsSub t pat) : ContainsSub s pat := by
  rcases h1 with ⟨a, b, hab⟩
  rcases h2 with ⟨x, y, hxy⟩
  refine ⟨a ++ x, y ++ b, ?_⟩
  rw [← hab, ← hxy]
  simp [List.append_assoc]

/-- The document always contains the fixed footer literal. -/
theorem docContainsFooter (env : JsEnv) (ty : String) (o : ChartOptions) :
    ContainsSub (generateSvgContent env ty o) footerNoticeText := by
  show ContainsSub (docBeforeTitle _ _ ++ _) footerNoticeText
  apply ContainsSub.appLeft
  apply ContainsSub.appLeft
  apply ContainsSub.appLeft
  apply ContainsSub.appLeft
  refine containsSub_of_eq_append
    (a := "\n  \n  <!-- Generated locally notice -->\n  <text x=\"10\" y=\""
      ++ (ratToString (qsub (optHeight o) 10)
        ++ "\" class=\"axis-label\" fill=\"#888\">")) (b := "</text>\n</svg>") ?_
  simp [docTail, String.append_assoc]

/-- The document always contains the (defaulted) title verbatim. -/
theorem docContainsTitle (env : JsEnv) (ty : String) (o : ChartOptions) :
    ContainsSub (generateSvgContent env ty o) (strOr o.title (defaultTitle ty)) := by
  exact containsSub_of_eq_append (a := docBeforeTitle (optWidth o) (optHeight o))
    (b := docAfterTitle ++ (renderEls (dispatchChart env ty (dataOf o)
      (optWidth o) (optHeight o) o) ++ docTail (optHeight o))) rfl

/-- The document contains the rendering of every element of the
dispatched engine's fragment. -/
theorem docContainsFragmentEl (env : JsEnv) (ty : String) (o : ChartOptions)
    {el : El}
    (h : el ∈ dispatchChart env ty (dataOf o) (optWidth o) (optHeight o) o) :
    ContainsSub (generateSvgContent env ty o) (renderEl el) := by
  show ContainsSub (docBeforeTitle _ _ ++ _) _
  apply ContainsSub.appLeft
  apply ContainsSub.appLeft
  apply ContainsSub.appLeft
  exact (renderEls_containsSub h).appRight _

/-! ## C1 -/

/-- **C1.** For every well-formed request — any type string, any options
record of the documented shape, any ambient environment — the render
call `generateSvgContent` is a total function of its inputs (so it never
throws) and returns a non-empty document string that contains the root
`<svg>` element sized to the (defaulted) requested width and height, and
the fixed footer literal `"Generated locally - No remote uploads"`. -/
theorem C1_render_nonempty_sized_footer (env : JsEnv) (ty : String)
    (o : ChartOptions) :
    generateSvgContent env ty o ≠ ""
      ∧ ContainsSub (generateSvgContent env ty o)
          (svgOpenTag (optWidth o) (optHeight o))
      ∧ ContainsSub (generateSvgContent env ty o) footerNoticeText := by
  refine ⟨?_, ?_, ?_⟩
  · show docBeforeTitle (optWidth o) (optHeight o) ++ _ ≠ ""
    apply appendNeEmptyLeft
    show (xmlDecl ++ _).data ≠ []
    apply dataAppendNeNil
    decide
  · show ContainsSub (docBeforeTitle (optWidth o) (optHeight o) ++ _) _
    apply ContainsSub.appRight
    exact containsSub_of_eq_append (a := xmlDecl)
      (b := "\n" ++ (styleBlock ++ ("\n  \n  <!-- Chart Title -->\n  <text x=\""
        ++ (ratToString (qdiv (optWidth o) 2)
          ++ "\" y=\"30\" class=\"chart-title\">")))) rfl
  · exact docContainsFooter env ty o

/-! ## C8 -/

set_option maxHeartbeats 2000000 in
/-- Under empty data (and no `series` option feeding the dual-axes
engine from elsewhere) every dispatch target returns the
`'No data available'` placeholder fragment. -/
theorem dispatchDegenerate (env : JsEnv) (ty : String) (w h : ℚ)
    (o : ChartOptions) (hs : o.series = none) :
    dispatchChart env ty (.arr []) w h o = [noDataEl] := by
  have hdual : generateDualAxesChart (.arr []) w h o = [noDataEl] := by
    simp [generateDualAxesChart, dualExtract, hs]
  simp only [dispatchChart]
  split_ifs
  any_goals rfl
  exact hdual

/-- **C8.** Degenerate input yields a descriptive plain-text placeholder
fragment, not a thrown error: an empty or non-array data argument gives
the `'No data available'` text element in every engine (for dual-axes,
absent a `series` option that would supply data independently); a pie
whose value total is `<= 0` gives the `'No valid data for pie chart'`
placeholder, never an empty pie; a histogram with no valid numeric
values gives the `'No valid numeric data'` placeholder; and in the
empty-data case the call still succeeds with a complete document that
contains the placeholder text and the footer literal. -/
theorem C8_degenerate_placeholders (env : JsEnv) (w h : ℚ) (o : ChartOptions)
    (hs : o.series = none) :
    (∀ d : DataArg, d = .arr [] ∨ d = .notArr →
        generateColumnChart d w h o = [noDataEl]
          ∧ generateLineChart d w h o = [noDataEl]
          ∧ generatePieChart env d w h o = [noDataEl]
          ∧ generateAreaChart d w h o = [noDataEl]
          ∧ generateScatterChart env d w h o = [noDataEl]
          ∧ generateRadarChart env d w h o = [noDataEl]
          ∧ generateFunnelChart env d w h o = [noDataEl]
          ∧ generateDualAxesChart d w h o = [noDataEl]
          ∧ generateHistogramChart d w h o = [noDataEl])
      ∧ (∀ items : List JItem, items ≠ [] →
          jleB (pieTotal (items.map catValNormalize)) (.num 0) = true →
          generatePieChart env (.arr items) w h o = [noValidPieEl])
      ∧ (∀ items : List JItem, items ≠ [] → histValues items = [] →
          generateHistogramChart (.arr items) w h o = [noValidNumericEl])
      ∧ (∀ ty : String, o.data = some (.arr []) →
          ContainsSub (generateSvgContent env ty o) noDataText
            ∧ ContainsSub (generateSvgContent env ty o) footerNoticeText) := by
  refine ⟨?_, ?_, ?_, ?_⟩
  · rintro d (rfl | rfl) <;>
      exact ⟨rfl, rfl, rfl, rfl, rfl, rfl, rfl,
        by simp [generateDualAxesChart, dualExtract, hs], rfl⟩
  · intro items hne htot
    obtain ⟨a, rest, rfl⟩ := List.exists_cons_of_ne_nil hne
    simp only [List.map_cons] at htot
    simp [generatePieChart, htot]
  · intro items hne hv
    obtain ⟨a, rest, rfl⟩ := List.exists_cons_of_ne_nil hne
    simp [generateHistogramChart, hv]
  · intro ty hdata
    have hdisp : dispatchChart env ty (dataOf o) (optWidth o) (optHeight o) o
        = [noDataEl] := by
      rw [dataOf, hdata]
      exact dispatchDegenerate env ty _ _ o hs
    constructor
    · refine (@docContainsFragmentEl env ty o noDataEl ?_).trans ?_
      · rw [hdisp]; exact List.mem_singleton.mpr rfl
      · exact renderEl_text_containsSub _ _ _ _
    · exact docContainsFooter env ty o

/-- **C8 witness**: the placeholders at concrete degenerate inputs — an
empty array for every engine, a one-slice pie totalling zero, and a
histogram whose only item coerces to `NaN`. -/
theorem C8_degenerate_placeholders_witness :
    generatePieChart env0 (.arr []) 800 600 {} = [noDataEl]
      ∧ generatePieChart env0 (.arr [.prim (.vnum 0)]) 800 600 {} = [noValidPieEl]
      ∧ generateHistogramChart (.arr [.obj { value := some (.vstr "abc") }]) 800 600 {}
          = [noValidNumericEl]
      ∧ ContainsSub (generateSvgContent env0 "pie" { data := some (.arr []) }) noDataText := by
  have h1 := C8_degenerate_placeholders env0 800 600 {} rfl
  have h2 := C8_degenerate_placeholders env0 800 600 { data := some (.arr []) } rfl
  refine ⟨((h1.1 (.arr []) (Or.inl rfl)).2.2.1), ?_, ?_, ?_⟩
  · exact h1.2.1 [.prim (.vnum 0)] (by decide) (by decide)
  · exact h1.2.2.1 [.obj { value := some (.vstr "abc") }] (by decide) (by decide)
  · exact (h2.2.2.2 "pie" rfl).1

/-! ## C3 -/

theorem alGet_isSome_iff {α β : Type} [DecidableEq α] (l : List (α × β)) (k : α) :
    (alGet l k).isSome ↔ k ∈ l.map Prod.fst := by
  induction l with
  | nil => simp [alGet]
  | cons p rest ih =>
    rcases p with ⟨k0, v0⟩
    by_cases h : k0 = k
    · subst h
      simp [alGet]
    · simp only [alGet, if_neg h, List.map_cons, List.mem_cons, ih]
      constructor
      · exact Or.inr
      · rintro (rfl | hm)
        · exact absurd rfl h
        · exact hm

theorem alSet_map_fst {α β : Type} [DecidableEq α] (l : List (α × β)) (k : α) (v : β) :
    (alSet l k v).map Prod.fst =
      if k ∈ l.map Prod.fst then l.map Prod.fst else l.map Prod.fst ++ [k] := by
  induction l with
  | nil => simp [alSet]
  | cons p rest ih =>
    rcases p with ⟨k0, v0⟩
    by_cases h : k0 = k
    · subst h
      simp [alSet]
    · simp only [alSet, if_neg h, List.map_cons, ih]
      by_cases hm : k ∈ rest.map Prod.fst
      · simp [hm, List.mem_cons, Ne.symm h]
      · simp [hm, List.mem_cons, Ne.symm h]

/-- The column accumulator invariant: the category set is exactly the
key list of the grouped map, in order. -/
theorem colStep_keys (acc : ColAcc) (it : JItem)
    (h : acc.cats = acc.gd.map Prod.fst) :
    (colStep acc it).cats = (colStep acc it).gd.map Prod.fst := by
  rcases it with v | o
  · simpa [colStep] using h
  · rcases hc : o.category with _ | cv
    · simpa [colStep, hc] using h
    · rcases hv : o.value with _ | vv
      · simpa [colStep, hc, hv] using h
      · by_cases ht : valTruthy cv
        · simp only [colStep, hc, hv, ht, if_true, addUniqueStr, alSet_map_fst]
          rw [h]
        · simpa [colStep, hc, hv, ht] using h

theorem colCollect_keys (items : List JItem) :
    (colCollect items).cats = (colCollect items).gd.map Prod.fst := by
  suffices h : ∀ acc : ColAcc, acc.cats = acc.gd.map Prod.fst →
      (items.foldl colStep acc).cats = (items.foldl colStep acc).gd.map Prod.fst by
    exact h ⟨[], [], []⟩ rfl
  induction items with
  | nil => exact fun acc h => h
  | cons it rest ih => exact fun acc h => ih _ (colStep_keys acc it h)

theorem colorAt_mem (colors : List String) (h : colors ≠ []) (i : ℕ) :
    colorAt colors i ∈ colors := by
  have hlen : 0 < colors.length := List.length_pos.mpr h
  have hlt : i % colors.length < colors.length := Nat.mod_lt _ hlen
  rw [colorAt, List.getD_eq_getElem?_getD, List.getElem?_eq_getElem hlt]
  exact List.getElem_mem _

theorem filter_flatMap_const_length {α β : Type} (l : List α) (f : α → List β)
    (p : β → Bool) (k : ℕ) (h : ∀ x ∈ l, ((f x).filter p).length = k) :
    ((l.flatMap f).filter p).length = k * l.length := by
  induction l with
  | nil => simp
  | cons a rest ih =>
    rw [List.flatMap_cons, List.filter_append, List.length_append,
      h a (List.mem_cons_self ..), ih (fun x hx => h x (List.mem_cons_of_mem _ hx))]
    simp [List.length_cons]
    ring

theorem snd_mem_of_mem_enum {α : Type} {l : List α} {p : ℕ × α}
    (h : p ∈ l.enum) : p.2 ∈ l := by
  have hm := List.mem_map_of_mem Prod.snd h
  rwa [List.enum_eq_enumFrom, List.enumFrom_map_snd] at hm

theorem attrFill_ne_chartBar (c0 : String) (hc : c0 ∈ colColors) (c : String)
    (hcc : c ∈ colColors) : ¬ attrFill c0 = attrsChartBar c := by
  simp only [colColors, List.mem_cons, List.not_mem_nil, or_false] at hc hcc
  rcases hc with rfl | rfl | rfl | rfl | rfl | rfl <;>
    rcases hcc with rfl | rfl | rfl | rfl | rfl | rfl <;> decide

theorem filter_chartBar_legend (area : Area) (grps : List JVal) :
    (colLegendEls area grps).filter isChartBarRect = [] := by
  rw [List.filter_eq_nil_iff]
  intro el hel
  rw [colLegendEls] at hel
  by_cases hg : grps.length > 1
  · rw [if_pos hg] at hel
    rcases List.mem_flatMap.mp hel with ⟨p, _, hmem⟩
    simp only [List.mem_cons, List.not_mem_nil, or_false] at hmem
    rcases hmem with rfl | rfl
    · simp only [isChartBarRect, List.any_eq_true, beq_iff_eq]
      rintro ⟨c, hcmem, hbeq⟩
      exact attrFill_ne_chartBar _ (colorAt_mem colColors (by decide) p.1) c hcmem hbeq
    · simp [isChartBarRect]
  · rw [if_neg hg] at hel
    exact absurd hel (List.not_mem_nil el)

theorem filter_chartBar_axes (area : Area) :
    (axesEls area).filter isChartBarRect = [] := by
  simp [axesEls, List.filter, isChartBarRect]

theorem filter_chartBar_titles (area : Area) (o : ChartOptions) :
    (axisTitleEls area o).filter isChartBarRect = [] := by
  rw [List.filter_eq_nil_iff]
  intro el hel
  rw [axisTitleEls] at hel
  rcases List.mem_append.mp hel with h | h <;>
    (split at h
     · split at h
       · exact absurd h (List.not_mem_nil el)
       · simp only [List.mem_singleton] at h
         subst h
         simp [isChartBarRect]
     · exact absurd h (List.not_mem_nil el))

theorem filter_chartBar_cell (area : Area) (grpsLen : ℕ)
    (catX catW barW maxV : JNum) (cm : List (JVal × JNum)) (gi : ℕ) (g : JVal) :
    ((colCellEls area grpsLen catX catW barW maxV cm gi g).filter
      isChartBarRect).length = 1 := by
  rw [colCellEls]
  have hany : (colColors.any fun c =>
      attrsChartBar (colorAt colColors gi) == attrsChartBar c) = true :=
    List.any_eq_true.mpr ⟨colorAt colColors gi,
      colorAt_mem colColors (by decide) gi, by simp⟩
  by_cases hl : jgtB (jmul (jdiv (colCellValue cm g) maxV) (.num area.h)) (.num 20) = true
  · simp [hl, List.filter, hany, isChartBarRect]
  · simp [hl, List.filter, hany, isChartBarRect]

/-- The per-category fragment contributes exactly one bar rectangle per
group when the category has an entry in the grouped map. -/
theorem filter_chartBar_cat (area : Area) (acc : ColAcc) (catW barW maxV : JNum)
    (ci : ℕ) (c : String) (cm : List (JVal × JNum))
    (hcm : alGet acc.gd c = some cm) :
    ((colCatEls area acc catW barW maxV ci c).filter isChartBarRect).length
      = acc.grps.length := by
  rw [colCatEls, hcm, List.filter_append, List.length_append]
  have h2 : (List.filter isChartBarRect [El.textEl
      (jadd (jadd (.num area.x) (jmul (.num (qofNat ci)) catW)) (jdiv catW (.num 2)))
      (.num (qadd (qadd area.y area.h) 20)) attrsMidLabel c]).length = 0 := by
    simp [List.filter, isChartBarRect]
  rw [h2, Nat.add_zero]
  rw [filter_flatMap_const_length _ _ _ 1
    (fun p _ => filter_chartBar_cell area acc.grps.length _ catW barW maxV cm p.1 p.2),
    Nat.one_mul, List.enum_length]

/-- **C3 (amended).** The column engine emits exactly one `chart-bar`
rectangle for every `(category, group)` pair of the full product
`C × G` — for a pair absent from the input the drawn value is `0` (a
zero-height rectangle), not an omitted bar. -/
theorem C3_product_rect_count (items : List JItem) (w h : ℚ) (o : ChartOptions) :
    ((generateColumnChart (.arr items) w h o).filter isChartBarRect).length
        = (colCollect items).cats.length * (colCollect items).grps.length
      ∧ (∀ c ∈ (colCollect items).cats, ∀ g ∈ (colCollect items).grps,
          alGet ((alGet (colCollect items).gd c).getD []) g = none →
            colCellValue ((alGet (colCollect items).gd c).getD []) g = .num 0) := by
  constructor
  · rcases items with _ | ⟨a, rest⟩
    · simp [generateColumnChart, colCollect, List.filter, noDataEl, isChartBarRect]
    · show ((colLegendEls _ _ ++ _).filter isChartBarRect).length = _
      rw [List.filter_append, List.length_append, filter_chartBar_legend]
      rw [List.filter_append, List.length_append, filter_chartBar_titles]
      rw [List.filter_append, List.length_append, filter_chartBar_axes]
      simp only [List.length_nil, Nat.add_zero, Nat.zero_add]
      rw [filter_flatMap_const_length _ _ _ (colCollect (a :: rest)).grps.length ?_,
        List.enum_length, Nat.mul_comm]
      intro p hp
      have hmemc : p.2 ∈ (colCollect (a :: rest)).cats := snd_mem_of_mem_enum hp
      have hsome : (alGet (colCollect (a :: rest)).gd p.2).isSome := by
        rw [alGet_isSome_iff, ← colCollect_keys]
        exact hmemc
      rcases Option.isSome_iff_exists.mp hsome with ⟨cm, hcm⟩
      exact filter_chartBar_cat _ _ _ _ _ _ _ cm hcm
  · intro c _ g _ hnone
    rw [colCellValue, hnone]
    rfl

/-- **C3 counterexample.** With two categories and two groups but only
two present cells, the engine emits four `chart-bar` rectangles — two of
them of height exactly `0` for the absent `(category, group)` pairs —
contradicting the claim that an absent pair produces no rect at all. -/
theorem C3_counterexample :
    ((generateColumnChart (.arr [cexColItem1, cexColItem2]) 800 600 {}).filter
        isChartBarRect).length = 4
      ∧ ((generateColumnChart (.arr [cexColItem1, cexColItem2]) 800 600 {}).filter
          fun el => isChartBarRect el && rectHeightIs0 el).length = 2 := by
  exact ⟨by decide, by decide⟩

/-- **C3 witness** for the amended count at a concrete input, with the
zero-value conclusion instantiated at the absent pair `("Q1", "B")`. -/
theorem C3_product_rect_count_witness :
    ((generateColumnChart (.arr [cexColItem1, cexColItem2]) 800 600 {}).filter
        isChartBarRect).length
      = (colCollect [cexColItem1, cexColItem2]).cats.length
          * (colCollect [cexColItem1, cexColItem2]).grps.length
      ∧ colCellValue ((alGet (colCollect [cexColItem1, cexColItem2]).gd "Q1").getD [])
          (.vstr "B") = .num 0 :=
  ⟨(C3_product_rect_count [cexColItem1, cexColItem2] 800 600 {}).1,
   (C3_product_rect_count [cexColItem1, cexColItem2] 800 600 {}).2 "Q1" (by decide)
     (.vstr "B") (by decide) (by decide)⟩

/-! ## C2 -/

theorem qmin_eq (a b : ℚ) : qmin a b = min a b := by
  by_cases h : a ≤ b
  · rw [qmin, if_pos ((qle_iff a b).mpr h), min_eq_left h]
  · rw [qmin, if_neg (fun hc => h ((qle_iff a b).mp hc)),
      min_eq_right (le_of_not_le h)]

theorem qmax_eq (a b : ℚ) : qmax a b = max a b := by
  by_cases h : a ≤ b
  · rw [qmax, if_pos ((qle_iff a b).mpr h), max_eq_right h]
  · rw [qmax, if_neg (fun hc => h ((qle_iff a b).mp hc)),
      max_eq_left (le_of_not_le h)]

theorem foldl_qmin_le (l : List ℚ) : ∀ a : ℚ,
    l.foldl qmin a ≤ a ∧ ∀ v ∈ l, l.foldl qmin a ≤ v := by
  induction l with
  | nil => exact fun a => ⟨le_refl a, by simp⟩
  | cons b rest ih =>
    intro a
    have h := ih (qmin a b)
    have hminab : qmin a b = min a b := qmin_eq a b
    refine ⟨h.1.trans (by rw [hminab]; exact min_le_left a b), ?_⟩
    intro v hv
    rcases List.mem_cons.mp hv with rfl | hm
    · exact h.1.trans (by rw [hminab]; exact min_le_right a v)
    · exact h.2 v hm

theorem foldl_qmax_ge (l : List ℚ) : ∀ a : ℚ,
    a ≤ l.foldl qmax a ∧ ∀ v ∈ l, v ≤ l.foldl qmax a := by
  induction l with
  | nil => exact fun a => ⟨le_refl a, by simp⟩
  | cons b rest ih =>
    intro a
    have h := ih (qmax a b)
    have hmaxab : qmax a b = max a b := qmax_eq a b
    refine ⟨(by rw [hmaxab]; exact le_max_left a b : a ≤ qmax a b).trans h.1, ?_⟩
    intro v hv
    rcases List.mem_cons.mp hv with rfl | hm
    · exact (by rw [hmaxab]; exact le_max_right a v : v ≤ qmax a v).trans h.1
    · exact h.2 v hm

theorem histBins_pos (o : ChartOptions) : 0 < histBins o := by
  rw [histBins]
  rcases o.bins with _ | b
  · exact Nat.zero_lt_succ 9
  · show 0 < if b = 0 then 10 else b
    split_ifs with hb
    · exact Nat.zero_lt_succ 9
    · exact Nat.pos_of_ne_zero hb

theorem sum_set_getD_add_one (l : List ℕ) (i : ℕ) (h : i < l.length) :
    (l.set i (l.getD i 0 + 1)).sum = l.sum + 1 := by
  induction l generalizing i with
  | nil => simp at h
  | cons a rest ih =>
    cases i with
    | zero =>
      simp only [List.set, List.getD_cons_zero, List.sum_cons]
      omega
    | succ n =>
      have hn : n < rest.length := by simpa using h
      simp only [List.set, List.getD_cons_succ, List.sum_cons, ih n hn]
      omega

/-- When the bin width is nonzero, the bin index is the finite number
`min(⌊(v−mn)/binW⌋, bins−1)`. -/
theorem histBinIndex_eq (mn binW : ℚ) (bins : ℕ) (v : ℚ) (hbw : binW ≠ 0) :
    histBinIndex mn binW bins v
      = .num (min (qofInt (qfloor (qdiv (qsub v mn) binW))) (qofNat (bins - 1))) := by
  rw [histBinIndex]
  rw [show jdiv (.num (qsub v mn)) (.num binW) = .num (qdiv (qsub v mn) binW) by
    simp [jdiv, hbw]]
  show JNum.num (if qle _ _ then _ else _) = _
  by_cases h : qofInt (qfloor (qdiv (qsub v mn) binW)) ≤ qofNat (bins - 1)
  · rw [if_pos ((qle_iff _ _).mpr h), min_eq_left h]
  · rw [if_neg (fun hc => h ((qle_iff _ _).mp hc)),
      min_eq_right (le_of_not_le h)]

/-- A valid finite integer bin index bumps the frequency sum by one and
keeps the length. -/
theorem bumpBin_valid (freqs : List ℕ) (j : ℤ) (h0 : 0 ≤ j)
    (hlt : j < (freqs.length : ℤ)) :
    (bumpBin freqs (.num (qofInt j))).sum = freqs.sum + 1
      ∧ (bumpBin freqs (.num (qofInt j))).length = freqs.length := by
  have hden : (qofInt j).den = 1 := by rw [qofInt_eq]; exact Rat.den_intCast j
  have hnum : (qofInt j).num = j := by rw [qofInt_eq]; exact Rat.num_intCast j
  rw [bumpBin, if_pos ⟨hden, by rw [hnum]; exact h0, by rw [hnum]; exact hlt⟩]
  constructor
  · rw [hnum]
    exact sum_set_getD_add_one freqs j.toNat (by omega)
  · exact List.length_set ..

/-- Each step of the binning loop adds exactly one to the total
frequency when the value is at least the minimum, the width is positive
and the array has `bins` cells (the upper clamp needs no upper bound on
the value). -/
theorem bump_step (mn binW : ℚ) (bins : ℕ) (v : ℚ) (freqs : List ℕ)
    (hbw : binW > 0) (hbins : 0 < bins) (hlen : freqs.length = bins)
    (hvl : mn ≤ v) :
    (bumpBin freqs (histBinIndex mn binW bins v)).sum = freqs.sum + 1
      ∧ (bumpBin freqs (histBinIndex mn binW bins v)).length = freqs.length := by
  rw [histBinIndex_eq mn binW bins v (ne_of_gt hbw)]
  have hx : (0 : ℚ) ≤ qdiv (qsub v mn) binW := by
    rw [qdiv_eq, qsub_eq]
    exact div_nonneg (sub_nonneg.mpr hvl) hbw.le
  have hfl : (0 : ℤ) ≤ qfloor (qdiv (qsub v mn) binW) := by
    rw [qfloor_eq]
    exact Int.floor_nonneg.mpr hx
  have hmin : min (qofInt (qfloor (qdiv (qsub v mn) binW))) (qofNat (bins - 1))
      = qofInt (min (qfloor (qdiv (qsub v mn) binW)) ((bins - 1 : ℕ) : ℤ)) := by
    rw [qofInt_eq, qofInt_eq, qofNat_eq]
    push_cast
    rfl
  rw [hmin]
  have h0 : (0 : ℤ) ≤ min (qfloor (qdiv (qsub v mn) binW)) ((bins - 1 : ℕ) : ℤ) :=
    le_min hfl (by positivity)
  have hltb : min (qfloor (qdiv (qsub v mn) binW)) ((bins - 1 : ℕ) : ℤ)
      < (freqs.length : ℤ) := by
    rw [hlen]
    have h1 : ((bins - 1 : ℕ) : ℤ) < (bins : ℤ) := by omega
    exact lt_of_le_of_lt (min_le_right _ _) h1
  exact bumpBin_valid freqs _ h0 hltb

/-- The binning loop: total frequency equals the value count and the
array keeps its `bins` cells, whenever the width is positive. -/
theorem histFreqs_sum (mn binW : ℚ) (bins : ℕ) (hbw : binW > 0)
    (hbins : 0 < bins) (values : List ℚ) (hmem : ∀ v ∈ values, mn ≤ v) :
    (histFreqs mn binW bins values).sum = values.length
      ∧ (histFreqs mn binW bins values).length = bins := by
  rw [histFreqs]
  suffices h : ∀ (l : List ℚ) (f : List ℕ), f.length = bins → (∀ v ∈ l, mn ≤ v) →
      (l.foldl (fun f v => bumpBin f (histBinIndex mn binW bins v)) f).sum
          = f.sum + l.length
        ∧ (l.foldl (fun f v => bumpBin f (histBinIndex mn binW bins v)) f).length
          = bins by
    have h2 := h values (List.replicate bins 0) (by simp) hmem
    simpa using h2
  intro l
  induction l with
  | nil => exact fun f hf _ => ⟨by simp, by simpa using hf⟩
  | cons v rest ih =>
    intro f hf hm
    have hstep := bump_step mn binW bins v f hbw hbins hf (hm v (List.mem_cons_self ..))
    have hrest := ih (bumpBin f (histBinIndex mn binW bins v))
      (hstep.2.trans hf) (fun x hx => hm x (List.mem_cons_of_mem _ hx))
    refine ⟨?_, hrest.2⟩
    rw [List.foldl_cons, hrest.1, hstep.1, List.length_cons]
    omega

/-- **C2 (amended).** Provided the extracted numeric values are not all
equal (`min < max`), the histogram's bin frequencies sum to the count of
extracted values, the frequency array has exactly `bins` cells, and the
maximum value receives bin index `bins − 1` (the last bin) — never
`bins`.  (When `min = max` the undefaulted bin width is `0`, every
value's bin index is the JavaScript `NaN`, and all frequencies stay `0` —
see the counterexample.) -/
theorem C2_hist_freq_sum_and_last_bin (items : List JItem) (o : ChartOptions)
    (v0 : ℚ) (vrest : List ℚ) (hv : histValues items = v0 :: vrest)
    (hlt : vrest.foldl qmin v0 < vrest.foldl qmax v0) :
    (histFreqs (vrest.foldl qmin v0)
        (histBinWidth (vrest.foldl qmin v0) (vrest.foldl qmax v0) (histBins o))
        (histBins o) (v0 :: vrest)).sum = (histValues items).length
      ∧ (histFreqs (vrest.foldl qmin v0)
          (histBinWidth (vrest.foldl qmin v0) (vrest.foldl qmax v0) (histBins o))
          (histBins o) (v0 :: vrest)).length = histBins o
      ∧ histBinIndex (vrest.foldl qmin v0)
          (histBinWidth (vrest.foldl qmin v0) (vrest.foldl qmax v0) (histBins o))
          (histBins o) (vrest.foldl qmax v0)
          = .num (qofNat (histBins o - 1)) := by
  have hbins := histBins_pos o
  have hbw : histBinWidth (vrest.foldl qmin v0) (vrest.foldl qmax v0) (histBins o) > 0 := by
    rw [histBinWidth, qdiv_eq, qsub_eq, qofNat_eq]
    apply div_pos (sub_pos.mpr hlt)
    exact_mod_cast hbins
  have hmem : ∀ v ∈ v0 :: vrest, vrest.foldl qmin v0 ≤ v := by
    intro v hvm
    rcases List.mem_cons.mp hvm with rfl | hm
    · exact (foldl_qmin_le vrest v).1
    · exact (foldl_qmin_le vrest v0).2 v hm
  have hsum := histFreqs_sum _ _ (histBins o) hbw hbins (v0 :: vrest) hmem
  refine ⟨by rw [hsum.1, hv], hsum.2, ?_⟩
  have hne : vrest.foldl qmax v0 - vrest.foldl qmin v0 ≠ 0 :=
    ne_of_gt (sub_pos.mpr hlt)
  have hbq : ((histBins o : ℕ) : ℚ) ≠ 0 :=
    Nat.cast_ne_zero.mpr (Nat.pos_iff_ne_zero.mp hbins)
  have hdiveq : qdiv (qsub (vrest.foldl qmax v0) (vrest.foldl qmin v0))
      (histBinWidth (vrest.foldl qmin v0) (vrest.foldl qmax v0) (histBins o))
      = ((histBins o : ℕ) : ℚ) := by
    simp only [histBinWidth, qdiv_eq, qsub_eq, qofNat_eq]
    field_simp
  rw [histBinIndex_eq _ _ _ _ (ne_of_gt hbw), hdiveq]
  have hfloor : qfloor ((histBins o : ℕ) : ℚ) = (histBins o : ℤ) := by
    rw [qfloor_eq]
    exact Int.floor_natCast _
  rw [hfloor]
  congr 1
  rw [qofInt_eq, qofNat_eq]
  have hle : ((histBins o - 1 : ℕ) : ℚ) ≤ ((histBins o : ℤ) : ℚ) := by
    push_cast
    have : (histBins o - 1 : ℕ) ≤ histBins o := Nat.sub_le _ _
    exact_mod_cast this
  rw [min_eq_right hle]

/-- **C2 counterexample.** For the input `[{5}, {5}]` both items coerce
to valid numeric values, yet every bin frequency stays `0` (the
undefaulted bin width is `0`, so each value's bin index is `NaN`): the
frequencies sum to `0`, not to the count `2` of valid values. -/
theorem C2_counterexample :
    histValues [JItem.prim (.vnum 5), JItem.prim (.vnum 5)] = [5, 5]
      ∧ histBinWidth 5 5 10 = 0
      ∧ (histFreqs 5 (histBinWidth 5 5 10) 10 [5, 5]).sum = 0
      ∧ (histValues [JItem.prim (.vnum 5), JItem.prim (.vnum 5)]).length = 2 := by
  exact ⟨by decide, by decide, by decide, by decide⟩

/-- **C2 witness**: input values `1, 2` with the default ten bins — the
frequencies sum to `2` and the maximum `2` lands in bin `9`. -/
theorem C2_hist_freq_sum_and_last_bin_witness :
    (histFreqs 1 (histBinWidth 1 2 10) 10 [1, 2]).sum
        = (histValues [JItem.prim (.vnum 1), JItem.prim (.vnum 2)]).length
      ∧ histBinIndex 1 (histBinWidth 1 2 10) 10 2 = .num (qofNat 9) := by
  have h := C2_hist_freq_sum_and_last_bin
    [JItem.prim (.vnum 1), JItem.prim (.vnum 2)] {} 1 [2] (by decide) (by decide)
  exact ⟨h.1, h.2.2⟩

/-! ## C5 -/

theorem colMaxFinal_ne_zero (gd : List (String × List (JVal × JNum))) :
    colMaxFinal gd ≠ .num 0 := by
  rw [colMaxFinal]
  split_ifs with h
  · simp
  · exact h

theorem foldl_jmax_num_or_ninf (l : List JNum) (hl : ∀ x ∈ l, ∃ q, x = .num q) :
    ∀ a : JNum, (a = .ninf ∨ ∃ q, a = .num q) →
      (l.foldl jmax a = .ninf ∨ ∃ q, l.foldl jmax a = .num q) := by
  induction l with
  | nil => exact fun a ha => ha
  | cons x rest ih =>
    intro a ha
    rcases hl x (List.mem_cons_self ..) with ⟨q, rfl⟩
    have hstep : jmax a (.num q) = .ninf ∨ ∃ p, jmax a (.num q) = .num p := by
      rcases ha with rfl | ⟨p, rfl⟩
      · exact Or.inr ⟨q, rfl⟩
      · exact Or.inr ⟨if qle p q then q else p, rfl⟩
    exact ih (fun y hy => hl y (List.mem_cons_of_mem _ hy)) _ hstep

theorem jmax_with_one (a : JNum) (ha : a = .ninf ∨ ∃ q, a = .num q) :
    ∃ q : ℚ, 1 ≤ q ∧ jmax a (.num 1) = .num q := by
  rcases ha with rfl | ⟨m, rfl⟩
  · exact ⟨1, le_refl 1, rfl⟩
  · show ∃ q, 1 ≤ q ∧ JNum.num (if qle m 1 then 1 else m) = .num q
    by_cases h : qle m 1 = true
    · exact ⟨1, le_refl 1, by rw [if_pos h]⟩
    · refine ⟨m, ?_, by rw [if_neg h]⟩
      exact le_of_lt (lt_of_not_le fun hc => h ((qle_iff m 1).mpr hc))

/-- **C5 (amended).** The zero-safe denominator policy holds for the
column maximum (`if (maxValue === 0) maxValue = 1`), the histogram's
maximum bin frequency (`Math.max(maxFrequency, 1)`), and the dual-axes
per-axis maxima (`Math.max(...data, 1)`), each of which is therefore
never the number `0` when used as a divisor; it does **not** hold for
the histogram bin width nor the funnel maximum stage value, which are
used as divisors with no default — see the counterexample. -/
theorem C5_zero_safe_divisors (gd : List (String × List (JVal × JNum)))
    (freqs : List ℕ) (seriesData : List ℚ) :
    colMaxFinal gd ≠ .num 0
      ∧ (∃ q : ℚ, 1 ≤ q
          ∧ jmax (jmaxSpread (freqs.map fun n => .num (qofNat n))) (.num 1) = .num q)
      ∧ (∃ q : ℚ, 1 ≤ q
          ∧ jmaxSpread (seriesData.map JNum.num ++ [.num 1]) = .num q) := by
  refine ⟨colMaxFinal_ne_zero gd, ?_, ?_⟩
  · apply jmax_with_one
    apply foldl_jmax_num_or_ninf
    · intro x hx
      rcases List.mem_map.mp hx with ⟨n, _, rfl⟩
      exact ⟨qofNat n, rfl⟩
    · exact Or.inl rfl
  · rw [jmaxSpread, List.foldl_append, List.foldl_cons, List.foldl_nil]
    apply jmax_with_one
    apply foldl_jmax_num_or_ninf
    · intro x hx
      rcases List.mem_map.mp hx with ⟨n, _, rfl⟩
      exact ⟨n, rfl⟩
    · exact Or.inl rfl

/-- **C5 counterexample.** The histogram bin width of the all-equal
input `[5, 5]` is `0` and is then used as the bin-index divisor with no
defaulting; likewise the funnel maximum of an all-zero stage list is
`0`, and the engine's `value / maxValue` division on it yields `NaN`
instead of a zero-safe result. -/
theorem C5_counterexample :
    histBinWidth 5 5 10 = 0
      ∧ histBinIndex 5 (histBinWidth 5 5 10) 10 5 = .nan
      ∧ funnelMaxValue [{ label := "A", value := .num 0 }] = .num 0
      ∧ jdiv (.num 0) (funnelMaxValue [{ label := "A", value := .num 0 }]) = .nan := by
  exact ⟨by decide, by decide, by decide, by decide⟩

/-! ## C7 -/

theorem filter_conv_stage (env : JsEnv) (area : Area) (stageH : ℚ) (maxV : JNum)
    (stages : List LPoint) (i : ℕ) (s : LPoint) :
    (funnelStageEls env area stageH maxV stages i s).filter isConvText
      = if 0 < i then [funnelConvEl area stageH stages i] else [] := by
  rw [funnelStageEls]
  have hlab : (attrsFunnelLabel == attrsPlainLabel) = false := by decide
  have hval : (attrsFunnelValue == attrsPlainLabel) = false := by decide
  have hconv : (attrsPlainLabel == attrsPlainLabel) = true := by decide
  by_cases hi : i = stages.length - 1
  · rw [if_pos hi]
    by_cases h0 : 0 < i
    · rw [if_pos h0]
      simp [List.filter_append, List.filter, isConvText, hlab, hval,
        funnelConvEl, hconv]
    · rw [if_neg h0]
      simp [List.filter_append, List.filter, isConvText, hlab, hval]
  · rw [if_neg hi]
    by_cases h0 : 0 < i
    · rw [if_pos h0]
      simp [List.filter_append, List.filter, isConvText, hlab, hval,
        funnelConvEl, hconv]
    · rw [if_neg h0]
      simp [List.filter_append, List.filter, isConvText, hlab, hval]

theorem filter_conv_loop (env : JsEnv) (area : Area) (stageH : ℚ) (maxV : JNum)
    (stages : List LPoint) :
    ∀ (rest : List LPoint) (i : ℕ), 0 < i →
      (funnelLoop env area stageH maxV stages i rest).filter isConvText
        = (List.range' i rest.length).map (funnelConvEl area stageH stages) := by
  intro rest
  induction rest with
  | nil => intro i _; simp [funnelLoop]
  | cons s rest' ih =>
    intro i hi
    show ((funnelStageEls env area stageH maxV stages i s
        ++ funnelLoop env area stageH maxV stages (i + 1) rest').filter
          isConvText) = _
    rw [List.filter_append, filter_conv_stage, if_pos hi,
      ih (i + 1) (Nat.succ_pos i), List.length_cons, List.range'_succ,
      List.map_cons]
    rfl

/-- The conversion texts of the whole funnel fragment: exactly one per
stage index `1 .. n−1`, none for stage `0`. -/
theorem filter_conv_funnel (env : JsEnv) (area : Area) (stageH : ℚ)
    (maxV : JNum) (stages : List LPoint) :
    (funnelLoop env area stageH maxV stages 0 stages).filter isConvText
      = (List.range' 1 (stages.length - 1)).map (funnelConvEl area stageH stages) := by
  rcases stages with _ | ⟨s0, rest⟩
  · simp [funnelLoop]
  · show ((funnelStageEls env area stageH maxV (s0 :: rest) 0 s0
        ++ funnelLoop env area stageH maxV (s0 :: rest) 1 rest).filter
          isConvText) = _
    rw [List.filter_append, filter_conv_stage, if_neg (lt_irrefl 0),
      filter_conv_loop env area stageH maxV (s0 :: rest) rest 1 Nat.one_pos]
    simp

/-- **C7.** In the funnel engine the conversion-rate texts of the output
are exactly one per stage index `i ∈ {1, …, n−1}` — none for the first
stage — and each is the text element at the right of the stage whose
content is `((value[i] / value[i−1]) * 100).toFixed(1) + "%"`; moreover
each stage's rendered width is `canvasWidth * (value / maxValue)`, a
monotonically non-decreasing function of the ratio. -/
theorem C7_funnel_conversion_and_monotone (env : JsEnv) (w h : ℚ)
    (o : ChartOptions) (items : List JItem) (hne : items ≠ []) :
    ((generateFunnelChart env (.arr items) w h o).filter isConvText
        = (List.range' 1 (items.length - 1)).map
            (funnelConvEl (funnelAreaOf w h)
              (qdiv (funnelAreaOf w h).h (qofNat items.length))
              (items.map catValNormalize)))
      ∧ (∀ (area : Area) (stageH : ℚ) (stages : List LPoint) (i : ℕ),
          funnelConvEl area stageH stages i
            = .textEl (.num (qadd (qadd area.x area.w) 10))
                (.num (qadd (qadd area.y (qmul (qofNat i) stageH)) (qdiv stageH 2)))
                attrsPlainLabel
                (jToFixed 1 (jmul (jdiv (stages.getD i lpZero).value
                  ((stages.getD (i - 1) lpZero).value)) (.num 100)) ++ "%"))
      ∧ (∀ (aw r1 r2 : ℚ), 0 ≤ aw → r1 ≤ r2 →
          jleB (funnelStageWidth aw (.num r1)) (funnelStageWidth aw (.num r2)) = true) := by
  refine ⟨?_, fun area stageH stages i => rfl, ?_⟩
  · obtain ⟨a, rest, rfl⟩ := List.exists_cons_of_ne_nil hne
    show ((funnelLoop env (funnelAreaOf w h) _ _ _ 0 _).filter isConvText) = _
    rw [filter_conv_funnel]
    simp [List.length_map]
  · intro aw r1 r2 haw hr
    show jleB (.num (qmul aw r1)) (.num (qmul aw r2)) = true
    show qle (qmul aw r1) (qmul aw r2) = true
    rw [qle_iff, qmul_eq, qmul_eq]
    exact mul_le_mul_of_nonneg_left hr haw

/-- **C7 witness**: a two-stage funnel `A: 100 → B: 50`; the single
conversion text sits at index 1 and the width monotonicity is
instantiated at ratios `1/2 ≤ 1` on the 400-pixel-wide canvas. -/
theorem C7_funnel_conversion_and_monotone_witness :
    ((generateFunnelChart env0
        (.arr [.obj { category := some (.vstr "A"), value := some (.vnum 100) },
               .obj { category := some (.vstr "B"), value := some (.vnum 50) }])
        600 600 {}).filter isConvText
      = (List.range' 1 1).map
          (funnelConvEl (funnelAreaOf 600 600) (qdiv (funnelAreaOf 600 600).h (qofNat 2))
            ([.obj { category := some (.vstr "A"), value := some (.vnum 100) },
              .obj ({ category := some (.vstr "B"), value := some (.vnum 50) } : JObj)].map
                catValNormalize)))
      ∧ jleB (funnelStageWidth 400 (.num (mkRat 1 2))) (funnelStageWidth 400 (.num 1)) = true := by
  have h := C7_funnel_conversion_and_monotone env0 600 600 {}
    [.obj { category := some (.vstr "A"), value := some (.vnum 100) },
     .obj { category := some (.vstr "B"), value := some (.vnum 50) }] (by decide)
  exact ⟨h.1, h.2.2 400 (mkRat 1 2) 1 (by norm_num) (by norm_num)⟩

/-! ## C10 -/

theorem ne_of_prefix_diff {pre rest t : String} (i : ℕ) (hi : i < pre.data.length)
    (hne : pre.data[i]? ≠ t.data[i]?) : pre ++ rest ≠ t := by
  intro h
  apply hne
  rw [show pre.data[i]? = (pre ++ rest).data[i]? from
    by rw [String.data_append, List.getElem?_append_left hi], h]

theorem attrsYTitle_ne_font10 (yMid : ℚ) : attrsYTitle yMid ≠ attrsMidFont10 := by
  rw [attrsYTitle, String.append_assoc]
  exact ne_of_prefix_diff 34 (by decide) (by decide)

theorem filter_vlabel_titles (area : Area) (o : ChartOptions) :
    (axisTitleEls area o).filter isValueLabelText = [] := by
  rw [List.filter_eq_nil_iff]
  intro el hel
  rw [axisTitleEls] at hel
  rcases List.mem_append.mp hel with h | h
  · split at h
    · split at h
      · exact absurd h (List.not_mem_nil el)
      · simp only [List.mem_singleton] at h
        subst h
        simp only [isValueLabelText, beq_iff_eq]
        decide
    · exact absurd h (List.not_mem_nil el)
  · split at h
    · split at h
      · exact absurd h (List.not_mem_nil el)
      · simp only [List.mem_singleton] at h
        subst h
        simp only [isValueLabelText, beq_iff_eq]
        exact fun hc => attrsYTitle_ne_font10 _ hc
    · exact absurd h (List.not_mem_nil el)

theorem filter_circle_titles (area : Area) (o : ChartOptions) :
    (axisTitleEls area o).filter isCircleEl = [] := by
  rw [List.filter_eq_nil_iff]
  intro el hel
  rw [axisTitleEls] at hel
  rcases List.mem_append.mp hel with h | h <;>
    (split at h
     · split at h
       · exact absurd h (List.not_mem_nil el)
       · simp only [List.mem_singleton] at h
         subst h
         simp [isCircleEl]
     · exact absurd h (List.not_mem_nil el))

theorem filter_vlabel_labels (area : Area) (n : ℕ) (minV range : JNum)
    (points : List LPoint) :
    ((lineLabelEls area n minV range points).filter isValueLabelText).length
      = points.length := by
  rw [lineLabelEls]
  rw [filter_flatMap_const_length _ _ _ 1 ?h, Nat.one_mul, List.enum_length]
  case h =>
    intro p _
    have hax : (attrsMidLabel == attrsMidFont10) = false := by decide
    have hv : (attrsMidFont10 == attrsMidFont10) = true := by decide
    by_cases hc : p.1 % jsCeilNat n 8 = 0
    · simp [hc, List.filter_append, List.filter, isValueLabelText, hax, hv]
    · simp [hc, List.filter_append, List.filter, isValueLabelText, hax, hv]

theorem filter_circle_labels (area : Area) (n : ℕ) (minV range : JNum)
    (points : List LPoint) :
    (lineLabelEls area n minV range points).filter isCircleEl = [] := by
  rw [List.filter_eq_nil_iff]
  intro el hel
  rcases List.mem_flatMap.mp hel with ⟨p, _, hmem⟩
  rcases List.mem_append.mp hmem with h | h
  · split at h
    · simp only [List.mem_singleton] at h
      subst h
      simp [isCircleEl]
    · exact absurd h (List.not_mem_nil el)
  · simp only [List.mem_singleton] at h
    subst h
    simp [isCircleEl]

/-- The line engine's output on a non-empty array, with its point list
named: the path, one circle per point, the labels, the axes. -/
theorem generateLineChart_cons (w h : ℚ) (o : ChartOptions) (a : JItem)
    (rest : List JItem) :
    ∃ pts : List (JNum × JNum), pts.length = (a :: rest).length
      ∧ generateLineChart (.arr (a :: rest)) w h o
        = [El.pathEl (pathDFrom pts) attrsChartLine]
          ++ (pts.map fun xy => El.circleEl xy.1 xy.2 (.num 4) attrsChartPoint)
          ++ lineLabelEls (chartAreaOf w h) ((a :: rest).map lineNormalize).length
              (jminSpread (((a :: rest).map lineNormalize).map (·.value)))
              (lineValueRange (((a :: rest).map lineNormalize).map (·.value)))
              ((a :: rest).map lineNormalize)
          ++ (axesEls (chartAreaOf w h) ++ axisTitleEls (chartAreaOf w h) o) := by
  have hout : generateLineChart (.arr (a :: rest)) w h o
      = (let area := chartAreaOf w h
         let points := (a :: rest).map lineNormalize
         let values := points.map (fun p => p.value)
         let minV := jminSpread values
         let range := lineValueRange values
         let n := points.length
         let pts := points.enum.map fun p =>
           (lineXAt area n p.1, lineYAt area minV range p.2)
         [El.pathEl (pathDFrom pts) attrsChartLine]
           ++ (pts.map fun xy => El.circleEl xy.1 xy.2 (.num 4) attrsChartPoint)
           ++ lineLabelEls area n minV range points
           ++ (axesEls area ++ axisTitleEls area o)) := rfl
  simp only [] at hout
  refine ⟨_, ?_, hout⟩
  rw [List.length_map, List.enum_length, List.length_map]

/-- **C10.** For every non-empty data array the line engine never drops
an input item: the output carries exactly one circle marker and exactly
one value label per element and contains the single connected path with
exactly `data.length` coordinate pairs; an item that is not an object
carrying `time`-or-`category` plus `value` is coerced to the label
`'Unknown'` with value `Number(item) || 0` rather than filtered out. -/
theorem C10_line_item_preservation (w h : ℚ) (o : ChartOptions)
    (items : List JItem) (hne : items ≠ []) :
    ((generateLineChart (.arr items) w h o).filter isCircleEl).length = items.length
      ∧ ((generateLineChart (.arr items) w h o).filter isValueLabelText).length
          = items.length
      ∧ (∃ pts : List (JNum × JNum), pts.length = items.length
          ∧ El.pathEl (pathDFrom pts) attrsChartLine
              ∈ generateLineChart (.arr items) w h o)
      ∧ (∀ v : JVal, lineNormalize (.prim v)
          = ⟨unknownLabel, itemNumOr0 (.prim v)⟩)
      ∧ (∀ ob : JObj, ob.value = none ∨ (ob.time = none ∧ ob.category = none) →
          lineNormalize (.obj ob) = ⟨unknownLabel, itemNumOr0 (.obj ob)⟩) := by
  obtain ⟨a, rest, rfl⟩ := List.exists_cons_of_ne_nil hne
  obtain ⟨pts, hlen, hout⟩ := generateLineChart_cons w h o a rest
  have hpathC : ∀ d : String,
      List.filter isCircleEl [El.pathEl d attrsChartLine] = [] := by
    intro d
    simp [List.filter, isCircleEl]
  have hpathV : ∀ d : String,
      List.filter isValueLabelText [El.pathEl d attrsChartLine] = [] := by
    intro d
    simp [List.filter, isValueLabelText]
  have haxC : (axesEls (chartAreaOf w h)).filter isCircleEl = [] := by
    simp [axesEls, List.filter, isCircleEl]
  have haxV : (axesEls (chartAreaOf w h)).filter isValueLabelText = [] := by
    simp [axesEls, List.filter, isValueLabelText]
  refine ⟨?_, ?_, ?_, fun v => rfl, ?_⟩
  · rw [hout]
    simp only [List.filter_append, List.length_append]
    rw [hpathC, filter_circle_labels, haxC, filter_circle_titles,
      List.filter_eq_self.mpr fun el hel => by
        rcases List.mem_map.mp hel with ⟨xy, _, rfl⟩
        rfl]
    simpa [List.length_map] using hlen
  · rw [hout]
    simp only [List.filter_append, List.length_append]
    rw [hpathV, haxV, filter_vlabel_titles, filter_vlabel_labels,
      List.filter_eq_nil_iff.mpr fun el hel => by
        rcases List.mem_map.mp hel with ⟨xy, _, rfl⟩
        simp [isValueLabelText]]
    simp [List.length_map]
  · refine ⟨pts, hlen, ?_⟩
    rw [hout]
    exact List.mem_append_left _ (List.mem_append_left _
      (List.mem_append_left _ (List.mem_singleton.mpr rfl)))
  · intro ob hob
    rcases hob with hv | ⟨ht, hc⟩
    · rcases hts : ob.time with _ | t
      · rcases hcs : ob.category with _ | c
        · simp [lineNormalize, hts, hcs]
        · simp [lineNormalize, hts, hcs, hv]
      · rcases hcs : ob.category with _ | c
        · simp [lineNormalize, hts, hcs, hv]
        · simp [lineNormalize, hts, hcs, hv]
    · simp [lineNormalize, ht, hc]

/-- **C10 witness**: three items — a `{time, value}` object, a bare
number and an object with only a `category` field — all preserved. -/
theorem C10_line_item_preservation_witness :
    ((generateLineChart
        (.arr [.obj { time := some (.vstr "Jan"), value := some (.vnum 3) },
               .prim (.vnum 7),
               .obj { category := some (.vstr "c") }]) 800 600 {}).filter
        isCircleEl).length = 3
      ∧ lineNormalize (.obj { category := some (.vstr "c") })
          = ⟨unknownLabel, itemNumOr0 (.obj { category := some (.vstr "c") })⟩ := by
  have h := C10_line_item_preservation 800 600 {}
    [.obj { time := some (.vstr "Jan"), value := some (.vnum 3) },
     .prim (.vnum 7), .obj { category := some (.vstr "c") }] (by decide)
  exact ⟨h.1, h.2.2.2.2 { category := some (.vstr "c") } (Or.inl rfl)⟩

/-! ## C4 -/

theorem filter_tick_bars (t : String) (area : Area) (n : ℕ)
    (bd : List JNum) (cats : List String) (mb : JNum) (bw : ℚ)
    (h1 : (attrsMidFont10 == t) = false) (h2 : (attrsMidLabel == t) = false) :
    (dualBarsEls area n bd cats mb bw).filter (isTickText t) = [] := by
  rw [List.filter_eq_nil_iff]
  intro el hel
  rcases List.mem_flatMap.mp hel with ⟨i, _, hmem⟩
  simp only [] at hmem
  rcases List.mem_append.mp hmem with h | h
  · split at h
    · split at h
      · rcases List.mem_append.mp h with h | h
        · simp only [List.mem_singleton] at h
          subst h
          simp [isTickText]
        · split at h
          · simp only [List.mem_singleton] at h
            subst h
            simp [isTickText, h1]
          · exact absurd h (List.not_mem_nil el)
      · exact absurd h (List.not_mem_nil el)
    · exact absurd h (List.not_mem_nil el)
  · split at h
    · simp only [List.mem_singleton] at h
      subst h
      simp [isTickText, h2]
    · exact absurd h (List.not_mem_nil el)

theorem filter_tick_linePart (t : String) (area : Area) (n : ℕ)
    (ld : List JNum) (ml : JNum) (h1 : (attrsMidFont10 == t) = false) :
    (dualLineEls area n ld ml).filter (isTickText t) = [] := by
  rw [List.filter_eq_nil_iff]
  intro el hel
  rcases List.mem_flatMap.mp hel with ⟨i, _, hmem⟩
  simp only [] at hmem
  rcases List.mem_cons.mp hmem with h | h
  · subst h
    simp [isTickText]
  · simp only [List.mem_singleton] at h
    subst h
    simp [isTickText, h1]

theorem filter_tick_path (t d a : String) :
    List.filter (isTickText t) [El.pathEl d a] = [] := by
  simp [List.filter, isTickText]

theorem filter_tick_axesLines (t : String) (area : Area) :
    (dualAxesLines area).filter (isTickText t) = [] := by
  simp [dualAxesLines, List.filter, isTickText]

theorem filter_tick_leftTicks (t : String) (area : Area) (mb : JNum)
    (h1 : (attrsEndLabel == t) = false) :
    (dualLeftTickEls area mb).filter (isTickText t) = [] := by
  rw [List.filter_eq_nil_iff]
  intro el hel
  rcases List.mem_flatMap.mp hel with ⟨i, _, hmem⟩
  simp only [] at hmem
  rcases List.mem_append.mp hmem with h | h
  · simp only [List.mem_singleton] at h
    subst h
    simp [isTickText, h1]
  · split at h
    · simp only [List.mem_singleton] at h
      subst h
      simp [isTickText]
    · exact absurd h (List.not_mem_nil el)

theorem filter_tick_rightTicks (t : String) (area : Area) (ml : JNum)
    (h1 : (attrsStartLabel == t) = false) :
    (dualRightTickEls area ml).filter (isTickText t) = [] := by
  rw [List.filter_eq_nil_iff]
  intro el hel
  rcases List.mem_flatMap.mp hel with ⟨i, _, hmem⟩
  simp only [] at hmem
  rcases List.mem_append.mp hmem with h | h
  · simp only [List.mem_singleton] at h
    subst h
    simp [isTickText, h1]
  · split at h
    · simp only [List.mem_singleton] at h
      subst h
      simp [isTickText]
    · exact absurd h (List.not_mem_nil el)

theorem attrsDualLeftTitle_ne_end (area : Area) :
    attrsDualLeftTitle area ≠ attrsEndLabel := by
  rw [attrsDualLeftTitle, String.append_assoc, String.append_assoc,
    String.append_assoc]
  exact ne_of_prefix_diff 14 (by decide) (by decide)

theorem attrsDualLeftTitle_ne_start (area : Area) :
    attrsDualLeftTitle area ≠ attrsStartLabel := by
  rw [attrsDualLeftTitle, String.append_assoc, String.append_assoc,
    String.append_assoc]
  exact ne_of_prefix_diff 14 (by decide) (by decide)

theorem attrsDualRightTitle_ne_end (area : Area) :
    attrsDualRightTitle area ≠ attrsEndLabel := by
  rw [attrsDualRightTitle, String.append_assoc, String.append_assoc,
    String.append_assoc]
  exact ne_of_prefix_diff 14 (by decide) (by decide)

theorem attrsDualRightTitle_ne_start (area : Area) :
    attrsDualRightTitle area ≠ attrsStartLabel := by
  rw [attrsDualRightTitle, String.append_assoc, String.append_assoc,
    String.append_assoc]
  exact ne_of_prefix_diff 14 (by decide) (by decide)

theorem filter_tick_titles (t : String) (area : Area) (o : ChartOptions)
    (hax : (attrsAxisTitle == t) = false)
    (hlt : attrsDualLeftTitle area ≠ t) (hrt : attrsDualRightTitle area ≠ t) :
    (dualTitleEls area o).filter (isTickText t) = [] := by
  rw [List.filter_eq_nil_iff]
  intro el hel
  rw [dualTitleEls] at hel
  rcases List.mem_append.mp hel with h | h
  · rcases List.mem_append.mp h with h | h
    · split at h
      · split at h
        · split at h
          · exact absurd h (List.not_mem_nil el)
          · simp only [List.mem_singleton] at h
            subst h
            simp only [isTickText, beq_iff_eq]
            exact hlt
        · exact absurd h (List.not_mem_nil el)
      · exact absurd h (List.not_mem_nil el)
    · split at h
      · split at h
        · split at h
          · exact absurd h (List.not_mem_nil el)
          · simp only [List.mem_singleton] at h
            subst h
            simp only [isTickText, beq_iff_eq]
            exact hrt
        · exact absurd h (List.not_mem_nil el)
      · exact absurd h (List.not_mem_nil el)
  · split at h
    · split at h
      · exact absurd h (List.not_mem_nil el)
      · simp only [List.mem_singleton] at h
        subst h
        simp [isTickText, hax]
    · exact absurd h (List.not_mem_nil el)

theorem filter_tick_legend (t : String) (area : Area)
    (hlg : (attrsLegendText == t) = false) :
    (dualLegendEls area).filter (isTickText t) = [] := by
  simp [dualLegendEls, List.filter, isTickText, hlg]

/-- Decomposition of the dual-axes output under a tick-text filter: only
the two tick blocks survive, each depending on its own series only. -/
theorem filter_tick_dual (t : String) (w h : ℚ) (d : DataArg) (o : ChartOptions)
    (h1 : (attrsMidFont10 == t) = false) (h2 : (attrsMidLabel == t) = false)
    (hax : (attrsAxisTitle == t) = false) (hlg : (attrsLegendText == t) = false)
    (hlt : attrsDualLeftTitle (chartAreaOf w h) ≠ t)
    (hrt : attrsDualRightTitle (chartAreaOf w h) ≠ t) :
    (generateDualAxesChart d w h o).filter (isTickText t)
      = if (dualExtract d o).1.length = 0 ∧ (dualExtract d o).2.1.length = 0
        then []
        else (dualLeftTickEls (chartAreaOf w h)
            (jmaxSpread ((dualExtract d o).1 ++ [.num 1]))).filter (isTickText t)
          ++ (dualRightTickEls (chartAreaOf w h)
            (jmaxSpread ((dualExtract d o).2.1 ++ [.num 1]))).filter (isTickText t) := by
  have hout : generateDualAxesChart d w h o
      = (let area := chartAreaOf w h
         let e := dualExtract d o
         let barData := e.1
         let lineData := e.2.1
         let cats := e.2.2
         if barData.length = 0 ∧ lineData.length = 0 then [noDataEl]
         else
           let maxBar := jmaxSpread (barData ++ [.num 1])
           let maxLine := jmaxSpread (lineData ++ [.num 1])
           let dataLen := max (max barData.length lineData.length) cats.length
           let barW := qdiv area.w (qmul (qofNat dataLen) (mkRat 3 2))
           dualBarsEls area dataLen barData cats maxBar barW
             ++ dualLineEls area dataLen lineData maxLine
             ++ [El.pathEl (pathDFrom (dualLinePts area dataLen lineData maxLine))
                   attrsDualPath]
             ++ dualAxesLines area
             ++ dualLeftTickEls area maxBar
             ++ dualRightTickEls area maxLine
             ++ dualTitleEls area o
             ++ dualLegendEls area) := rfl
  simp only [] at hout
  rw [hout]
  split_ifs with hc
  · simp [List.filter, noDataEl, isTickText, h2]
  · simp only [List.filter_append]
    rw [filter_tick_bars t _ _ _ _ _ _ h1 h2, filter_tick_linePart t _ _ _ _ h1,
      filter_tick_path, filter_tick_axesLines, filter_tick_titles t _ o hax hlt hrt,
      filter_tick_legend t _ hlg]
    simp

theorem filter_leftTick_dual (w h : ℚ) (d : DataArg) (o : ChartOptions) :
    (generateDualAxesChart d w h o).filter isLeftTick
      = if (dualExtract d o).1.length = 0 ∧ (dualExtract d o).2.1.length = 0
        then []
        else (dualLeftTickEls (chartAreaOf w h)
            (jmaxSpread ((dualExtract d o).1 ++ [.num 1]))).filter isLeftTick := by
  simp only [isLeftTick]
  rw [filter_tick_dual attrsEndLabel w h d o (by decide) (by decide) (by decide)
    (by decide) (attrsDualLeftTitle_ne_end _) (attrsDualRightTitle_ne_end _),
    filter_tick_rightTicks attrsEndLabel _ _ (by decide)]
  simp

theorem filter_rightTick_dual (w h : ℚ) (d : DataArg) (o : ChartOptions) :
    (generateDualAxesChart d w h o).filter isRightTick
      = if (dualExtract d o).1.length = 0 ∧ (dualExtract d o).2.1.length = 0
        then []
        else (dualRightTickEls (chartAreaOf w h)
            (jmaxSpread ((dualExtract d o).2.1 ++ [.num 1]))).filter isRightTick := by
  simp only [isRightTick]
  rw [filter_tick_dual attrsStartLabel w h d o (by decide) (by decide) (by decide)
    (by decide) (attrsDualLeftTitle_ne_start _) (attrsDualRightTitle_ne_start _),
    filter_tick_leftTicks attrsStartLabel _ _ (by decide)]
  simp

/-- **C4.** The two dual-axes axes are scaled independently: if two
requests extract the same bar series and line series of equal length,
the left-axis (bar) tick labels agree; symmetrically, equal line series
and bar series of equal length give identical right-axis (line) tick
labels.  Neither series' magnitude influences the other axis's ticks. -/
theorem C4_axis_tick_independence (w h : ℚ) (d d' : DataArg)
    (o o' : ChartOptions) :
    ((dualExtract d o).1 = (dualExtract d' o').1 →
      (dualExtract d o).2.1.length = (dualExtract d' o').2.1.length →
      (generateDualAxesChart d w h o).filter isLeftTick
        = (generateDualAxesChart d' w h o').filter isLeftTick)
    ∧ ((dualExtract d o).2.1 = (dualExtract d' o').2.1 →
      (dualExtract d o).1.length = (dualExtract d' o').1.length →
      (generateDualAxesChart d w h o).filter isRightTick
        = (generateDualAxesChart d' w h o').filter isRightTick) := by
  constructor
  · intro hb hl
    rw [filter_leftTick_dual, filter_leftTick_dual, hb, hl]
  · intro hl hb
    rw [filter_rightTick_dual, filter_rightTick_dual, hl, hb]

/-- **C4 witness**: changing only the line series values (`[5, 15]` to
`[500, 1]`) leaves the left-axis tick labels literally unchanged. -/
theorem C4_axis_tick_independence_witness :
    (dualExtract (.arr []) cexDualOpts).1 = (dualExtract (.arr []) cexDualOpts2).1
      ∧ (generateDualAxesChart (.arr []) 800 600 cexDualOpts).filter isLeftTick
          = (generateDualAxesChart (.arr []) 800 600 cexDualOpts2).filter
              isLeftTick :=
  ⟨by decide,
   (C4_axis_tick_independence 800 600 (.arr []) (.arr []) cexDualOpts
      cexDualOpts2).1 (by decide) (by decide)⟩

/-- **C4 counterexample**: the loops `for (let i = 0; i <= 5; i++)` emit
SIX tick labels per axis (`i = 0..5`), not five as the spec claims. -/
theorem C4_counterexample :
    ((generateDualAxesChart (.arr []) 800 600 cexDualOpts).filter
        isLeftTick).length = 6
      ∧ ((generateDualAxesChart (.arr []) 800 600 cexDualOpts).filter
          isRightTick).length = 6
      ∧ ((generateDualAxesChart (.arr []) 800 600 cexDualOpts).filter
          isLeftTick).length ≠ 5 := by
  decide

/-! ## C6 -/

theorem pieFold_eq (slices : List LPoint) (vs : List ℚ) (c : ℚ)
    (h : slices.map (fun p => p.value) = vs.map JNum.num) :
    slices.foldl (fun s p => jadd s p.value) (.num c) = .num (c + vs.sum) := by
  induction slices generalizing vs c with
  | nil =>
    cases vs with
    | nil => simp
    | cons q qs => simp at h
  | cons p ps ih =>
    cases vs with
    | nil => simp at h
    | cons q qs =>
      simp only [List.map_cons, List.cons.injEq] at h
      obtain ⟨hv, hrest⟩ := h
      simp only [List.foldl_cons, hv]
      rw [show jadd (JNum.num c) (JNum.num q) = .num (qadd c q) from rfl,
        ih qs _ hrest, qadd_eq, List.sum_cons]
      rw [show c + q + qs.sum = c + (q + qs.sum) from by ring]

theorem pieTotal_eq (slices : List LPoint) (vs : List ℚ)
    (h : slices.map (fun p => p.value) = vs.map JNum.num) :
    pieTotal slices = .num vs.sum := by
  rw [pieTotal, pieFold_eq slices vs 0 h, zero_add]

theorem jsumFold_eq (l : List ℚ) (c : ℚ) :
    (l.map JNum.num).foldl jadd (.num c) = .num (c + l.sum) := by
  induction l generalizing c with
  | nil => simp
  | cons q qs ih =>
    simp only [List.map_cons, List.foldl_cons]
    rw [show jadd (JNum.num c) (JNum.num q) = .num (qadd c q) from rfl,
      ih, qadd_eq, List.sum_cons]
    rw [show c + q + qs.sum = c + (q + qs.sum) from by ring]

theorem jsum_map_num (l : List ℚ) : jsum (l.map JNum.num) = .num l.sum := by
  rw [jsum, jsumFold_eq, zero_add]

theorem pieAngle_num (pi q T : ℚ) (hT : T ≠ 0) :
    pieAngle pi (.num T) (.num q) = .num (q / T * 2 * pi) := by
  rw [pieAngle]
  have h1 : jdiv (.num q) (.num T) = .num (qdiv q T) := by
    simp [jdiv, hT]
  rw [h1]
  rw [show jmul (jmul (JNum.num (qdiv q T)) (.num 2)) (.num pi)
      = .num (qmul (qmul (qdiv q T) 2) pi) from rfl]
  rw [qmul_eq, qmul_eq, qdiv_eq]

theorem piePct_num (q T : ℚ) (hT : T ≠ 0) :
    jmul (jdiv (.num q) (.num T)) (.num 100) = .num (q / T * 100) := by
  have h1 : jdiv (.num q) (.num T) = .num (qdiv q T) := by
    simp [jdiv, hT]
  rw [h1]
  rw [show jmul (JNum.num (qdiv q T)) (.num 100)
      = .num (qmul (qdiv q T) 100) from rfl]
  rw [qmul_eq, qdiv_eq]

theorem qsum_map_mulc (l : List ℚ) (c : ℚ) :
    (l.map fun q => q * c).sum = l.sum * c := by
  induction l with
  | nil => simp
  | cons q qs ih => simp [List.sum_cons, ih, add_mul]

theorem jleB_num_zero_false (q : ℚ) (h : 0 < q) :
    jleB (.num q) (.num 0) = false := by
  show qle q 0 = false
  rw [Bool.eq_false_iff, Ne, qle_iff]
  exact fun hc => absurd h (not_lt.mpr hc)

theorem getD_zero_of_head (l : List JNum) (x d : JNum) (h : l.head? = some x) :
    l.getD 0 d = x := by
  cases l with
  | nil => simp at h
  | cons a t =>
    simp only [List.head?_cons, Option.some.injEq] at h
    simp [List.getD, h]

theorem pieStarts_pos_spec (pi : ℚ) (T : JNum) (vs : List ℚ)
    (hpos : ∀ q ∈ vs, 0 < q) : ∀ cur : JNum,
    (pieStarts pi T cur (vs.map JNum.num)).length = vs.length
      ∧ (vs ≠ [] → (pieStarts pi T cur (vs.map JNum.num)).head? = some cur)
      ∧ ∀ i, i + 1 < vs.length →
          (pieStarts pi T cur (vs.map JNum.num)).getD (i + 1) (.num 0)
            = jadd ((pieStarts pi T cur (vs.map JNum.num)).getD i (.num 0))
                (pieAngle pi T (.num (vs.getD i 0))) := by
  induction vs with
  | nil => intro cur; exact ⟨rfl, fun hc => absurd rfl hc, fun i hi => by simp at hi⟩
  | cons q qs ih =>
    intro cur
    have hq : 0 < q := hpos q (List.mem_cons_self q qs)
    have hqs : ∀ r ∈ qs, 0 < r := fun r hr => hpos r (List.mem_cons_of_mem q hr)
    have hstep : pieStarts pi T cur ((q :: qs).map JNum.num)
        = cur :: pieStarts pi T (jadd cur (pieAngle pi T (.num q)))
            (qs.map JNum.num) := by
      simp [pieStarts, jleB_num_zero_false q hq]
    obtain ⟨ihlen, ihhead, ihrec⟩ := ih hqs (jadd cur (pieAngle pi T (.num q)))
    refine ⟨?_, ?_, ?_⟩
    · rw [hstep]
      simp [ihlen]
    · intro _
      rw [hstep]
      rfl
    · intro i hi
      rcases i with _ | j
      · rw [hstep]
        simp only [List.getD_cons_succ, List.getD_cons_zero, List.getD_cons_zero]
        have hqs_ne : qs ≠ [] := by
          intro hc
          rw [hc] at hi
          simp at hi
        rw [getD_zero_of_head _ _ _ (ihhead hqs_ne)]
      · rw [hstep]
        simp only [List.getD_cons_succ]
        have hj : j + 1 < qs.length := by
          simpa [List.length_cons, Nat.succ_lt_succ_iff] using hi
        rw [ihrec j hj]

theorem generatePieChart_pos (env : JsEnv) (it : JItem) (rest : List JItem)
    (w h : ℚ) (o : ChartOptions)
    (hT : jleB (pieTotal ((it :: rest).map catValNormalize)) (.num 0) = false) :
    generatePieChart env (.arr (it :: rest)) w h o
      = pieSliceEls env (qdiv w 2) (qadd (qdiv h 2) 20) (qdiv (qmin w h) 4)
          (pieTotal ((it :: rest).map catValNormalize)) 0
          (.num (qdiv (qneg env.pi) 2)) ((it :: rest).map catValNormalize)
        ++ pieLegendEls (qdiv w 2) (qadd (qdiv h 2) 20) (qdiv (qmin w h) 4)
            ((it :: rest).map catValNormalize) := by
  have hout : generatePieChart env (.arr (it :: rest)) w h o
      = (let cX := qdiv w 2
         let cY := qadd (qdiv h 2) 20
         let radius := qdiv (qmin w h) 4
         let slices := (it :: rest).map catValNormalize
         let total := pieTotal slices
         if jleB total (.num 0) then [noValidPieEl]
         else pieSliceEls env cX cY radius total 0 (.num (qdiv (qneg env.pi) 2))
                slices
              ++ pieLegendEls cX cY radius slices) := rfl
  simp only [] at hout
  have hcc : ¬ (jleB (pieTotal ((it :: rest).map catValNormalize)) (.num 0)
      = true) := by
    rw [hT]
    exact Bool.false_ne_true
  rw [hout, if_neg hcc]

/-- **C6.** For every pie input whose slices all carry positive numeric
values, the slice angles `(value/total)*2*PI` sum to exactly `2*PI`, the
percentage-label ratios `(value/total)*100` sum to exactly `100`, and the
loop's `currentAngle` starts at `-PI/2` and advances by exactly one slice
angle per slice, in input order; the engine renders the slice branch with
that start angle. -/
theorem C6_pie_angles (env : JsEnv) (items : List JItem) (vs : List ℚ)
    (hvs : (items.map catValNormalize).map (fun p => p.value) = vs.map JNum.num)
    (hpos : ∀ q ∈ vs, 0 < q) (hne : items ≠ []) :
    jsum ((items.map catValNormalize).map fun p =>
        pieAngle env.pi (pieTotal (items.map catValNormalize)) p.value)
      = .num (2 * env.pi)
    ∧ jsum ((items.map catValNormalize).map fun p =>
        jmul (jdiv p.value (pieTotal (items.map catValNormalize))) (.num 100))
      = .num 100
    ∧ (pieStarts env.pi (pieTotal (items.map catValNormalize))
        (.num (qdiv (qneg env.pi) 2))
        ((items.map catValNormalize).map fun p => p.value)).head?
        = some (.num (qdiv (qneg env.pi) 2))
    ∧ (∀ i, i + 1 < vs.length →
        (pieStarts env.pi (pieTotal (items.map catValNormalize))
          (.num (qdiv (qneg env.pi) 2))
          ((items.map catValNormalize).map fun p => p.value)).getD (i + 1)
            (.num 0)
          = jadd ((pieStarts env.pi (pieTotal (items.map catValNormalize))
              (.num (qdiv (qneg env.pi) 2))
              ((items.map catValNormalize).map fun p => p.value)).getD i (.num 0))
              (pieAngle env.pi (pieTotal (items.map catValNormalize))
                (.num (vs.getD i 0))))
    ∧ (∀ w h : ℚ, ∀ o : ChartOptions, generatePieChart env (.arr items) w h o
        = pieSliceEls env (qdiv w 2) (qadd (qdiv h 2) 20) (qdiv (qmin w h) 4)
            (pieTotal (items.map catValNormalize)) 0
            (.num (qdiv (qneg env.pi) 2)) (items.map catValNormalize)
          ++ pieLegendEls (qdiv w 2) (qadd (qdiv h 2) 20) (qdiv (qmin w h) 4)
              (items.map catValNormalize)) := by
  have hvs_ne : vs ≠ [] := by
    intro hc
    subst hc
    cases items with
    | nil => exact hne rfl
    | cons it rest => simp at hvs
  have hsum_pos : 0 < vs.sum := List.sum_pos vs hpos hvs_ne
  have hT : vs.sum ≠ 0 := ne_of_gt hsum_pos
  have htot : pieTotal (items.map catValNormalize) = .num vs.sum :=
    pieTotal_eq _ vs hvs
  obtain ⟨hlen, hhead, hrec⟩ :=
    pieStarts_pos_spec env.pi (pieTotal (items.map catValNormalize)) vs hpos
      (.num (qdiv (qneg env.pi) 2))
  refine ⟨?_, ?_, ?_, ?_, ?_⟩
  · have hmap : ((items.map catValNormalize).map fun p =>
        pieAngle env.pi (pieTotal (items.map catValNormalize)) p.value)
        = (vs.map fun q => q / vs.sum * 2 * env.pi).map JNum.num := by
      rw [htot]
      have hcomp : ((items.map catValNormalize).map fun p =>
          pieAngle env.pi (.num vs.sum) p.value)
          = ((items.map catValNormalize).map fun p => p.value).map
              (fun v => pieAngle env.pi (.num vs.sum) v) := by
        simp only [List.map_map]
        rfl
      rw [hcomp, hvs, List.map_map, List.map_map]
      exact List.map_congr_left fun q _ => pieAngle_num env.pi q vs.sum hT
    rw [hmap, jsum_map_num]
    have hring : (vs.map fun q => q / vs.sum * 2 * env.pi)
        = vs.map fun q => q * (2 * env.pi / vs.sum) :=
      List.map_congr_left fun q _ => by ring
    rw [hring, qsum_map_mulc]
    congr 1
    field_simp
  · have hmap : ((items.map catValNormalize).map fun p =>
        jmul (jdiv p.value (pieTotal (items.map catValNormalize))) (.num 100))
        = (vs.map fun q => q / vs.sum * 100).map JNum.num := by
      rw [htot]
      have hcomp : ((items.map catValNormalize).map fun p =>
          jmul (jdiv p.value (.num vs.sum)) (.num 100))
          = ((items.map catValNormalize).map fun p => p.value).map
              (fun v => jmul (jdiv v (.num vs.sum)) (.num 100)) := by
        simp only [List.map_map]
        rfl
      rw [hcomp, hvs, List.map_map, List.map_map]
      exact List.map_congr_left fun q _ => piePct_num q vs.sum hT
    rw [hmap, jsum_map_num]
    have hring : (vs.map fun q => q / vs.sum * 100)
        = vs.map fun q => q * (100 / vs.sum) :=
      List.map_congr_left fun q _ => by ring
    rw [hring, qsum_map_mulc]
    congr 1
    field_simp
  · rw [hvs]
    exact hhead hvs_ne
  · intro i hi
    rw [hvs]
    exact hrec i hi
  · intro w h o
    obtain ⟨it, rest, rfl⟩ := List.exists_cons_of_ne_nil hne
    apply generatePieChart_pos
    rw [htot]
    exact jleB_num_zero_false vs.sum hsum_pos

/-- **C6 witness**: three slices of values `1, 2, 3`; their angles sum
to exactly `2*PI`. -/
theorem C6_pie_angles_witness :
    (∀ q ∈ [(1:ℚ), 2, 3], 0 < q)
    ∧ jsum ((cexPieItems.map catValNormalize).map fun p =>
        pieAngle env0.pi (pieTotal (cexPieItems.map catValNormalize)) p.value)
      = .num (2 * env0.pi) :=
  ⟨by decide,
   (C6_pie_angles env0 cexPieItems [1, 2, 3] rfl (by decide) (by decide)).1⟩

/-! ## C9 -/

theorem mem_enumFrom_of_mem {α : Type} (a : α) :
    ∀ (l : List α) (n : ℕ), a ∈ l → ∃ i, (i, a) ∈ l.enumFrom n := by
  intro l
  induction l with
  | nil => intro n h; cases h
  | cons b t ih =>
    intro n h
    rcases List.mem_cons.mp h with rfl | hm
    · exact ⟨n, List.mem_cons_self _ _⟩
    · obtain ⟨i, hi⟩ := ih (n + 1) hm
      exact ⟨i, List.mem_cons_of_mem _ hi⟩

theorem mem_enum_of_mem {α : Type} (a : α) (l : List α) (h : a ∈ l) :
    ∃ i, (i, a) ∈ l.enum := mem_enumFrom_of_mem a l 0 h

theorem colCatEls_some (area : Area) (acc : ColAcc) (catW barW maxV : JNum)
    (ci : ℕ) (c : String) (cm : List (JVal × JNum))
    (hcm : alGet acc.gd c = some cm) :
    colCatEls area acc catW barW maxV ci c
      = (acc.grps.enum.flatMap fun p =>
          colCellEls area acc.grps.length
            (jadd (.num area.x) (jmul (.num (qofNat ci)) catW)) catW barW maxV
            cm p.1 p.2)
        ++ [.textEl (jadd (jadd (.num area.x) (jmul (.num (qofNat ci)) catW))
              (jdiv catW (.num 2)))
              (.num (qadd (qadd area.y area.h) 20)) attrsMidLabel c] := by
  simp only [colCatEls, hcm]

/-- Every collected category's label is emitted as a text element by the
column engine. -/
theorem colCat_label_mem (w h : ℚ) (o : ChartOptions) (a : JItem)
    (rest : List JItem) (ci : ℕ) (c : String) (cm : List (JVal × JNum))
    (hcm : alGet (colCollect (a :: rest)).gd c = some cm)
    (hienum : (ci, c) ∈ (colCollect (a :: rest)).cats.enum) :
    El.textEl
        (jadd (jadd (.num (chartAreaOf w h).x)
          (jmul (.num (qofNat ci))
            (jdiv (.num (chartAreaOf w h).w)
              (.num (qofNat (colCollect (a :: rest)).cats.length)))))
          (jdiv (jdiv (.num (chartAreaOf w h).w)
            (.num (qofNat (colCollect (a :: rest)).cats.length))) (.num 2)))
        (.num (qadd (qadd (chartAreaOf w h).y (chartAreaOf w h).h) 20))
        attrsMidLabel c
      ∈ generateColumnChart (.arr (a :: rest)) w h o := by
  have hout : generateColumnChart (.arr (a :: rest)) w h o
      = (let area := chartAreaOf w h
         let acc := colCollect (a :: rest)
         let maxV := colMaxFinal acc.gd
         let catW := jdiv (.num area.w) (.num (qofNat acc.cats.length))
         let barW := jdiv catW (.num (qmul (qofNat acc.grps.length) (mkRat 6 5)))
         colLegendEls area acc.grps
           ++ ((acc.cats.enum.flatMap fun p =>
                colCatEls area acc catW barW maxV p.1 p.2)
             ++ axesEls area ++ axisTitleEls area o)) := rfl
  simp only [] at hout
  rw [hout]
  apply List.mem_append_right
  apply List.mem_append_left
  apply List.mem_append_left
  apply List.mem_flatMap.mpr
  refine ⟨(ci, c), hienum, ?_⟩
  rw [colCatEls_some _ _ _ _ _ _ _ cm hcm]
  exact List.mem_append_right _ (List.mem_singleton.mpr rfl)

/-- **C9 (amended).** Every request's document contains the (defaulted)
title verbatim, with no character escaping; for a column request it also
contains every collected category label verbatim.  (The universal claim
over every data-derived label fails: see the counterexample.) -/
theorem C9_title_and_labels (env : JsEnv) (ty : String) (o : ChartOptions) :
    ContainsSub (generateSvgContent env ty o) (strOr o.title (defaultTitle ty))
      ∧ (jsToLower ty = "column" →
          ∀ items : List JItem, dataOf o = .arr items → items ≠ [] →
          ∀ c ∈ (colCollect items).cats,
            ContainsSub (generateSvgContent env ty o) c) := by
  refine ⟨docContainsTitle env ty o, ?_⟩
  intro hty items hdata hne c hc
  have hb : ("column" == "bar") = false := by decide
  have hcol : ("column" == "column") = true := by decide
  have hd : dispatchChart env ty (dataOf o) (optWidth o) (optHeight o) o
      = generateColumnChart (dataOf o) (optWidth o) (optHeight o) o := by
    simp only [dispatchChart, hty, hb, hcol]
    simp
  obtain ⟨a, rest, rfl⟩ := List.exists_cons_of_ne_nil hne
  have hsome : (alGet (colCollect (a :: rest)).gd c).isSome := by
    rw [alGet_isSome_iff, ← colCollect_keys]
    exact hc
  rcases Option.isSome_iff_exists.mp hsome with ⟨cm, hcm⟩
  obtain ⟨ci, hienum⟩ := mem_enum_of_mem c (colCollect (a :: rest)).cats hc
  have hmem := colCat_label_mem (optWidth o) (optHeight o) o a rest ci c cm hcm
    hienum
  rw [← hdata] at hmem
  rw [← hd] at hmem
  exact (docContainsFragmentEl env ty o hmem).trans
    (renderEl_text_containsSub _ _ attrsMidLabel c)

/-- **C9 witness**: title `"T<i>tle"` and category label `"<b>x"` both
appear verbatim and unescaped in the rendered column document. -/
theorem C9_title_and_labels_witness :
    ContainsSub (generateSvgContent env0 "column" cexC9WitOpts) "T<i>tle"
      ∧ ContainsSub (generateSvgContent env0 "column" cexC9WitOpts) "<b>x" :=
  ⟨(C9_title_and_labels env0 "column" cexC9WitOpts).1,
   (C9_title_and_labels env0 "column" cexC9WitOpts).2 rfl
     [cexC9WitItem] rfl (by decide) "<b>x" (by decide)⟩

set_option maxRecDepth 8000 in
/-- **C9 counterexample.** The single group label `"q"` of a one-group
column request appears nowhere in the document: the legend is only drawn
when more than one group exists, so not every data-derived label string
is contained in the output. -/
theorem C9_counterexample :
    ¬ ContainsSub (generateSvgContent env0 "column" cexC9Opts) "q" := by
  apply not_containsSub_of_char (c := 'q') (by decide)
  show 'q' ∉ (docBeforeTitle (optWidth cexC9Opts) (optHeight cexC9Opts)
      ++ (strOr cexC9Opts.title (defaultTitle "column")
        ++ (docAfterTitle
          ++ (renderEls (dispatchChart env0 "column" (dataOf cexC9Opts)
                (optWidth cexC9Opts) (optHeight cexC9Opts) cexC9Opts)
            ++ docTail (optHeight cexC9Opts))))).data
  apply charNotMemAppend (by decide)
  apply charNotMemAppend (by decide)
  apply charNotMemAppend (by decide)
  apply charNotMemAppend (charNotMemRenderEls (by decide)) (by decide)
